import Mathlib
/-!
Verification of the Factory Physics simulation engine
(`simulation_tool/simulation_engine/`): a shallow embedding of
`discrete_event_sim.py`, `production_line.py` and `factory_physics.py`.

Conventions of the embedding:
* Python `float` values are modelled as `ℚ` (the code performs only
  field arithmetic and comparisons on them).
* Python `int` is modelled as `ℤ` where negative values can occur
  (`system_wip`, indices passed by callers), `ℕ` for counters.
* `np.random.gamma(shape, scale)` draws are modelled by an oracle
  `rng : ℕ → ℚ → ℚ → ℚ` carried in the state: draw number `i` with
  parameters `(shape, scale)` yields `rng i shape scale`.  Theorems
  quantify over all oracles, hence over all possible sample paths.
* Fallible Python operations (list indexing, constructor) are embedded
  with `Option`/`Except`.  Inside event handlers, branches on which the
  Python code would raise (e.g. an out-of-range `station_id` inside a
  dispatched event) return the state unchanged; the run-loop invariant
  proved below shows those branches are unreachable from valid initial
  states.
-/
namespace SimEngine
/-- `EventType` enum of `discrete_event_sim.py`. -/
inductive EventType where
  | ARRIVAL
  | PROCESSING_START
  | PROCESSING_END
  | DEPARTURE
deriving DecidableEq, Repr
/-- `Event` dataclass of `discrete_event_sim.py`.  The unused `data`
dict field is omitted (it is never read nor written by the engine). -/
structure Event where
  time : ℚ
  event_type : EventType
  station_id : Option ℕ := none
  entity_id : Option ℕ := none
deriving DecidableEq, Repr
instance : Inhabited Event := ⟨⟨0, EventType.ARRIVAL, none, none⟩⟩
/-- `Event.__lt__`: comparison used by the heap; only `time` is
compared, there is no tie-breaking field. -/
def Event.lt (a b : Event) : Bool := a.time < b.time
/-! ### CPython `heapq`

The event queue is a Python list manipulated by `heapq.heappush` and
`heapq.heappop`.  We embed CPython's `_siftdown`, `_siftup`, `heappush`
and `heappop` verbatim (comparison via `Event.__lt__`, i.e. on `time`
only). -/
/-- CPython `heapq._siftdown(heap, startpos, pos)` where the entry at
`pos` is conceptually `newitem` (the array cell holding it is treated
as a hole and rewritten on exit, exactly as CPython does). -/
def siftdown (heap : List Event) (startpos pos : ℕ) (newitem : Event) :
    List Event :=
  if _h : startpos < pos then
    let parentpos := (pos - 1) / 2
    let parent := heap.getD parentpos default
    if newitem.time < parent.time then
      siftdown (heap.set pos parent) startpos parentpos newitem
    else
      heap.set pos newitem
  else
    heap.set pos newitem
termination_by pos
decreasing_by
  have : (pos - 1) / 2 ≤ pos - 1 := Nat.div_le_self _ _
  omega
/-- CPython `heapq._siftup(heap, pos)` (with `startpos`, and the moved
item `newitem` passed explicitly; CPython reads `newitem = heap[pos]`
at entry and the caller of this embedding passes that value). -/
def siftup (heap : List Event) (startpos pos : ℕ) (newitem : Event) :
    List Event :=
  let endpos := heap.length
  let childpos := 2 * pos + 1
  if _h : childpos < endpos then
    let rightpos := childpos + 1
    let childpos2 :=
      if rightpos < endpos ∧
          ¬ ((heap.getD childpos default).time <
             (heap.getD rightpos default).time) then
        rightpos
      else childpos
    siftup (heap.set pos (heap.getD childpos2 default)) startpos childpos2
      newitem
  else
    siftdown heap startpos pos newitem
termination_by heap.length - pos
decreasing_by
  simp only [List.length_set]
  split <;> omega
/-- CPython `heapq.heappush(heap, item)`:
`heap.append(item); _siftdown(heap, 0, len(heap)-1)`. -/
def heappush (heap : List Event) (item : Event) : List Event :=
  siftdown (heap ++ [item]) 0 heap.length item
/-- CPython `heapq.heappop(heap)`: pops the last element; if the heap
is still non-empty the root is returned and the last element is sifted
into place from the root.  Returns `none` on the empty list (CPython
raises `IndexError`). -/
def heappop (heap : List Event) : Option (Event × List Event) :=
  match heap.getLast? with
  | none => none
  | some lastelt =>
    let rest := heap.dropLast
    if rest.isEmpty then
      some (lastelt, [])
    else
      some (rest.headD default, siftup (rest.set 0 lastelt) 0 0 lastelt)
/-- The binary min-heap invariant on times (each parent's time is `≤`
its children's times), as maintained by `heapq` for `Event.__lt__`. -/
def heapPropB (heap : List Event) : Bool :=
  (List.range heap.length).all fun j =>
    j = 0 || decide ((heap.getD ((j - 1) / 2) default).time ≤
                     (heap.getD j default).time)
/-! ### `factory_physics.py` -/
/-- Result of `calculate_cycle_time`: a finite rational or `np.inf`. -/
inductive CTResult where
  | inf
  | val (q : ℚ)
deriving DecidableEq, Repr
/-- `calculate_cycle_time(mean_processing_time, utilization, cv_arrival,
cv_processing)` from `factory_physics.py` (Kingman's approximation). -/
def calculate_cycle_time (mean_processing_time utilization : ℚ)
    (cv_arrival : ℚ := 1) (cv_processing : ℚ := 1) : CTResult :=
  if utilization ≥ 1 then
    CTResult.inf
  else if utilization ≤ 0 then
    CTResult.val mean_processing_time
  else
    let variability_term := (cv_arrival ^ 2 + cv_processing ^ 2) / 2
    let utilization_term := utilization / (1 - utilization)
    CTResult.val
      (variability_term * utilization_term * mean_processing_time +
        mean_processing_time)
/-! ### `discrete_event_sim.py`: the simulator state -/
/-- `DiscreteEventSimulator` state.  The `event_handlers` registry is
not data here: `ProductionLine.__init__` registers exactly the two
handlers `_handle_arrival` (for `ARRIVAL`) and `_handle_processing_end`
(for `PROCESSING_END`), which is reflected in `dispatchEvent` below.
The `stats` dict fields `total_entities` and `completed_entities` are
initialised to `0` and never written by the engine. -/
structure DiscreteEventSimulator where
  clock : ℚ := 0
  event_queue : List Event := []
  total_entities : ℕ := 0
  completed_entities : ℕ := 0
  events_processed : ℕ := 0
/-- `DiscreteEventSimulator.schedule_event`. -/
def scheduleEvent (sim : DiscreteEventSimulator) (event : Event) :
    DiscreteEventSimulator :=
  { sim with event_queue := heappush sim.event_queue event }
/-! ### `production_line.py`: stations and the line -/
/-- `StationState` enum. -/
inductive StationState where
  | IDLE
  | PROCESSING
  | BLOCKED
  | STARVED
deriving DecidableEq, Repr
/-- `Station` dataclass. -/
structure Station where
  station_id : ℕ
  name : String
  mean_processing_time : ℚ
  cv_processing : ℚ := 1
  buffer_capacity : ℕ := 0
  state : StationState := StationState.IDLE
  current_job : Option ℕ := none
  queue : List ℕ := []
  buffer : List ℕ := []
  total_processed : ℕ := 0
  total_processing_time : ℚ := 0
  total_idle_time : ℚ := 0
  total_blocked_time : ℚ := 0
  total_starved_time : ℚ := 0
  last_state_change_time : ℚ := 0
deriving DecidableEq, Repr
instance : Inhabited Station :=
  ⟨{ station_id := 0, name := "", mean_processing_time := 1 }⟩
/-- `Station.get_processing_time`: deterministic mean when
`cv_processing == 0`, otherwise a Gamma draw with
`shape = 1/cv²`, `scale = mean/shape`; `sample` is the
`np.random.gamma` oracle applied at the current draw index. -/
def getProcessingTime (st : Station) (sample : ℚ → ℚ → ℚ) : ℚ :=
  if st.cv_processing = 0 then
    st.mean_processing_time
  else if st.cv_processing > 0 then
    let shape := 1 / st.cv_processing ^ 2
    let scale := st.mean_processing_time / shape
    sample shape scale
  else
    st.mean_processing_time
/-- The service duration actually used when scheduling a
`PROCESSING_END` event in `_try_start_processing`:
`processing_time = max(0.001, station.get_processing_time())`. -/
def usedProcessingTime (st : Station) (sample : ℚ → ℚ → ℚ) : ℚ :=
  max (1 / 1000) (getProcessingTime st sample)
/-- `Station.update_statistics(current_time)`: adds the elapsed time to
the counter of the *current* state, then stamps
`last_state_change_time`. -/
def updateStatistics (st : Station) (current_time : ℚ) : Station :=
  let time_elapsed := current_time - st.last_state_change_time
  match st.state with
  | StationState.IDLE =>
    { st with total_idle_time := st.total_idle_time + time_elapsed,
              last_state_change_time := current_time }
  | StationState.BLOCKED =>
    { st with total_blocked_time := st.total_blocked_time + time_elapsed,
              last_state_change_time := current_time }
  | StationState.STARVED =>
    { st with total_starved_time := st.total_starved_time + time_elapsed,
              last_state_change_time := current_time }
  | StationState.PROCESSING =>
    { st with last_state_change_time := current_time }
/-- `Station.get_utilization(current_time)` (the mutation of the station
performed by its internal `update_statistics` call only restamps
counters; the returned ratio is embedded here). -/
def getUtilization (st : Station) (current_time : ℚ) : ℚ :=
  let st := updateStatistics st current_time
  let total_time := current_time
  if total_time > 0 then
    (total_time - st.total_idle_time - st.total_blocked_time -
      st.total_starved_time) / total_time
  else 0
/-- `ProductionLine` state (the line owns its simulator; the
`stats_history` list is never appended to and is omitted).  `rng` and
`rng_index` model the `np.random.gamma` oracle and the number of draws
consumed so far. -/
structure ProductionLine where
  num_stations : ℤ
  conwip_level : ℤ
  arrival_rate : ℚ
  cv_arrival : ℚ
  stations : List Station
  sim : DiscreteEventSimulator := {}
  entity_counter : ℕ := 0
  system_wip : ℤ := 0
  completed_jobs : List ℕ := []
  job_arrival_times : List (ℕ × ℚ) := []
  job_completion_times : List (ℕ × ℚ) := []
  rng : ℕ → ℚ → ℚ → ℚ
  rng_index : ℕ := 0
/-- `ProductionLine._try_start_processing(station_id, job_id)`.
The `stations[station_id]` access raises `IndexError` in Python when the
index is out of range; that branch (unreachable from the handlers, whose
arguments are proved in range) returns the state unchanged. -/
def tryStartProcessing (L : ProductionLine) (station_id job_id : ℕ) :
    ProductionLine :=
  match L.stations[station_id]? with
  | none => L
  | some station =>
    if station.state = StationState.IDLE then
      let station := { station with state := StationState.PROCESSING,
                                    current_job := some job_id }
      let station := updateStatistics station L.sim.clock
      let processing_time := usedProcessingTime station (L.rng L.rng_index)
      let end_event : Event :=
        { time := L.sim.clock + processing_time,
          event_type := EventType.PROCESSING_END,
          station_id := some station_id,
          entity_id := some job_id }
      { L with stations := L.stations.set station_id station,
               sim := scheduleEvent L.sim end_event,
               rng_index :=
                 L.rng_index + (if 0 < station.cv_processing then 1 else 0) }
    else
      if job_id ∈ station.queue then L
      else
        let station := { station with queue := station.queue ++ [job_id] }
        { L with stations := L.stations.set station_id station }
/-- `ProductionLine._handle_arrival(event)`.  Python dict assignment
`job_arrival_times[job_id] = clock` is embedded as a cons whose lookup
(first match) realises overwrite semantics. -/
def handleArrival (L : ProductionLine) (_event : Event) : ProductionLine :=
  if L.system_wip < L.conwip_level then
    let job_id := L.entity_counter + 1
    let L := { L with entity_counter := job_id,
                      system_wip := L.system_wip + 1,
                      job_arrival_times :=
                        (job_id, L.sim.clock) :: L.job_arrival_times }
    tryStartProcessing L 0 job_id
  else
    L
/-- `ProductionLine._handle_processing_end(event)`.  The branches in
which Python would raise (`station_id`/`entity_id` absent from the
event, or out of range) return the state unchanged; the run-loop
invariant below proves they are never taken from valid initial
states. -/
def handleProcessingEnd (L : ProductionLine) (event : Event) :
    ProductionLine :=
  match event.station_id, event.entity_id with
  | some station_id, some job_id =>
    match L.stations[station_id]? with
    | none => L
    | some station =>
      let station := updateStatistics
        { station with total_processed := station.total_processed + 1,
                       current_job := none,
                       state := StationState.IDLE } L.sim.clock
      let L := { L with stations := L.stations.set station_id station }
      let L :=
        if (station_id : ℤ) < L.num_stations - 1 then
          tryStartProcessing L (station_id + 1) job_id
        else
          let L := { L with
            job_completion_times :=
              (job_id, L.sim.clock) :: L.job_completion_times,
            completed_jobs := L.completed_jobs ++ [job_id],
            system_wip := L.system_wip - 1 }
          if L.system_wip < L.conwip_level then
            let new_arrival : Event :=
              { time := L.sim.clock, event_type := EventType.ARRIVAL }
            { L with sim := scheduleEvent L.sim new_arrival }
          else L
      match L.stations[station_id]? with
      | none => L
      | some station2 =>
        match station2.queue with
        | [] => L
        | next_job :: rest =>
          let station3 := { station2 with queue := rest }
          let L := { L with stations := L.stations.set station_id station3 }
          tryStartProcessing L station_id next_job
  | _, _ => L
/-- Handler dispatch of `DiscreteEventSimulator.run`: only `ARRIVAL` and
`PROCESSING_END` have registered handlers (`ProductionLine.__init__`);
other kinds are silently skipped. -/
def dispatchEvent (L : ProductionLine) (event : Event) : ProductionLine :=
  match event.event_type with
  | EventType.ARRIVAL => handleArrival L event
  | EventType.PROCESSING_END => handleProcessingEnd L event
  | _ => L
/-- One iteration of the `while` loop of
`DiscreteEventSimulator.run(max_time, max_events)`: `none` when the
loop exits (empty queue, or a bound reached — both bounds are checked
*before* popping), otherwise the state after dispatching one event. -/
def stepSim (max_time : Option ℚ) (max_events : Option ℕ)
    (L : ProductionLine) : Option ProductionLine :=
  if L.sim.event_queue.isEmpty then none
  else if (match max_time with
           | some t => decide (L.sim.clock ≥ t)
           | none => false) then none
  else if (match max_events with
           | some m => decide (L.sim.events_processed ≥ m)
           | none => false) then none
  else
    match heappop L.sim.event_queue with
    | none => none
    | some (event, queue2) =>
      let L := { L with sim :=
        { L.sim with event_queue := queue2, clock := event.time } }
      let L := dispatchEvent L event
      some { L with sim :=
        { L.sim with events_processed := L.sim.events_processed + 1 } }
/-- The `run` loop, executed for at most `fuel` iterations (the Python
loop has no a-priori bound; every claim below is about states reached
after finitely many dispatches, i.e. about `runFuel n` for some `n`). -/
def runFuel (fuel : ℕ) (max_time : Option ℚ) (max_events : Option ℕ)
    (L : ProductionLine) : ProductionLine :=
  match fuel with
  | 0 => L
  | n + 1 =>
    match stepSim max_time max_events L with
    | none => L
    | some L2 => runFuel n max_time max_events L2
/-- Scheduling of a batch of `ARRIVAL` events, as
`ProductionLine.generate_arrivals` does for the sampled arrival
instants (each `schedule_event` call pushes
`Event(time=t, event_type=ARRIVAL)`). -/
def scheduleArrivals (L : ProductionLine) (times : List ℚ) :
    ProductionLine :=
  times.foldl
    (fun L t =>
      let arrival_event : Event := { time := t, event_type := EventType.ARRIVAL }
      { L with sim := scheduleEvent L.sim arrival_event })
    L
/-- Body of the stations list comprehension in
`ProductionLine.__init__`: `Station(station_id=i, name=f"Station {i+1}",
mean_processing_time=mean_processing_times[i],
cv_processing=cv_processing[i])`; the subscripts raise `IndexError`
when `i` is out of range. -/
def buildStation (mpts cvs : List ℚ) (i : ℕ) : Except String Station := do
  let m ← match mpts[i]? with
    | some m => Except.ok m
    | none => Except.error "IndexError: list index out of range"
  let cv ← match cvs[i]? with
    | some cv => Except.ok cv
    | none => Except.error "IndexError: list index out of range"
  Except.ok { station_id := i,
              name := "Station " ++ toString (i + 1),
              mean_processing_time := m,
              cv_processing := cv : Station }
/-- `ProductionLine.__init__`.  Python raises `IndexError` while
building the stations list when a provided parameter list is shorter
than `num_stations`; this (and only this) makes construction fail,
embedded via `Except`.  `range(num_stations)` is empty for
`num_stations ≤ 0`. -/
def initLine (num_stations : ℤ := 4) (conwip_level : ℤ := 10)
    (mean_processing_times : Option (List ℚ) := none)
    (cv_processing : Option (List ℚ) := none)
    (arrival_rate : ℚ := 1 / 10) (cv_arrival : ℚ := 1)
    (rng : ℕ → ℚ → ℚ → ℚ := fun _ _ _ => 1) :
    Except String ProductionLine := do
  let n := num_stations.toNat
  let mpts := mean_processing_times.getD (List.replicate n 1)
  let cvs := cv_processing.getD (List.replicate n 1)
  let stations ← (List.range n).mapM (buildStation mpts cvs)
  Except.ok
    { num_stations := num_stations, conwip_level := conwip_level,
      arrival_rate := arrival_rate, cv_arrival := cv_arrival,
      stations := stations, rng := rng }
/-- Python list indexing semantics for `self.stations[station_id]`:
non-negative indices are used directly, negative indices address from
the end, anything else raises `IndexError`. -/
def pyIndex (len : ℕ) (i : ℤ) : Option ℕ :=
  if 0 ≤ i ∧ i < (len : ℤ) then some i.toNat
  else if -(len : ℤ) ≤ i ∧ i < 0 then some ((len : ℤ) + i).toNat
  else none
/-- `ProductionLine.update_parameters(station_id, mean_processing_time,
cv_processing)`. -/
def updateParameters (L : ProductionLine) (station_id : ℤ)
    (mean_processing_time : Option ℚ := none)
    (cv_processing : Option ℚ := none) : Except String ProductionLine :=
  match pyIndex L.stations.length station_id with
  | none => Except.error "IndexError: list index out of range"
  | some k =>
    let station := L.stations.getD k default
    let station :=
      match mean_processing_time with
      | some m => { station with mean_processing_time := m }
      | none => station
    let station :=
      match cv_processing with
      | some cv => { station with cv_processing := cv }
      | none => station
    Except.ok { L with stations := L.stations.set k station }
/-! ### `ProductionLine.get_statistics` -/
/-- One entry of the `station_stats` list. -/
structure StationStats where
  station_id : ℕ
  name : String
  utilization : ℚ
  total_processed : ℕ
  avg_processing_time : ℚ
deriving DecidableEq, Repr
/-- The statistics dictionary returned by `get_statistics`. -/
structure Statistics where
  throughput : ℚ
  avg_cycle_time : ℚ
  avg_wip : ℚ
  total_completed : ℕ
  station_stats : List StationStats
  simulation_time : ℚ
deriving DecidableEq, Repr
/-- Python dict lookup (`job_id in d` / `d[job_id]`); entries are consed
most-recent first, so the first match realises overwrite semantics. -/
def dictGet (d : List (ℕ × ℚ)) (k : ℕ) : Option ℚ :=
  (d.find? (fun p => p.1 = k)).map (·.2)
/-- The `cycle_times` list built by `get_statistics`: for each completed
job present in both timestamp maps with `arrival_time ≥ warmup_period`,
the difference `completion − arrival`. -/
def cycleTimes (L : ProductionLine) (warmup_period : ℚ) : List ℚ :=
  L.completed_jobs.filterMap fun job_id =>
    match dictGet L.job_arrival_times job_id,
          dictGet L.job_completion_times job_id with
    | some arrival_time, some completion_time =>
      if arrival_time ≥ warmup_period then
        some (completion_time - arrival_time)
      else none
    | _, _ => none
/-- `ProductionLine.get_statistics(warmup_period)` (the station-flushing
mutations only restamp counters; all returned numbers are computed
here). -/
def getStatistics (L : ProductionLine) (warmup_period : ℚ := 0) :
    Statistics :=
  let stations := L.stations.map (fun st => updateStatistics st L.sim.clock)
  let cycle_times := cycleTimes L warmup_period
  let total_time := L.sim.clock - warmup_period
  let throughput :=
    if total_time > 0 then (cycle_times.length : ℚ) / total_time else 0
  let avg_cycle_time :=
    if cycle_times ≠ [] then cycle_times.sum / cycle_times.length else 0
  let avg_wip := if avg_cycle_time > 0 then throughput * avg_cycle_time else 0
  let station_stats := stations.map fun station =>
    { station_id := station.station_id,
      name := station.name,
      utilization := getUtilization station L.sim.clock,
      total_processed := station.total_processed,
      avg_processing_time :=
        if station.total_processed > 0 then
          station.total_processing_time / station.total_processed
        else 0 : StationStats }
  { throughput := throughput,
    avg_cycle_time := avg_cycle_time,
    avg_wip := avg_wip,
    total_completed := cycle_times.length,
    station_stats := station_stats,
    simulation_time := L.sim.clock }
/-! ### Auxiliary notions for the run-loop invariant -/
/-- The jobs a single station holds: its `current_job` while
`Processing`, followed by its waiting queue. -/
def contrib (st : Station) : List ℕ :=
  (if st.state = StationState.PROCESSING then st.current_job.toList
   else []) ++ st.queue
/-- All jobs currently in the system (admitted, not completed),
station by station. -/
def jobsInSystem (stations : List Station) : List ℕ :=
  (stations.map contrib).flatten
/-- Number of `PROCESSING_END` events for station `s` in the queue. -/
def countPE (s : ℕ) (q : List Event) : ℕ :=
  q.countP fun e =>
    decide (e.event_type = EventType.PROCESSING_END ∧
            e.station_id = some s)
/-- Well-formedness of the pending event queue with respect to the
stations: every event is an `ARRIVAL`, or a `PROCESSING_END` naming an
in-range station that is currently `Processing` exactly the event's
job. -/
def PEevents (L : ProductionLine) : Prop :=
  ∀ e ∈ L.sim.event_queue,
    e.event_type = EventType.ARRIVAL ∨
    (e.event_type = EventType.PROCESSING_END ∧
      ∃ s, e.station_id = some s ∧ s < L.stations.length ∧
        (L.stations.getD s default).state = StationState.PROCESSING ∧
        e.entity_id = (L.stations.getD s default).current_job ∧
        (L.stations.getD s default).current_job ≠ none)
/-- Each `Processing` station has exactly one pending `PROCESSING_END`
event; idle stations have none. -/
def PEcount (L : ProductionLine) : Prop :=
  ∀ s, s < L.stations.length →
    countPE s L.sim.event_queue =
      (if (L.stations.getD s default).state = StationState.PROCESSING
       then 1 else 0)
/-- The run-loop invariant of the production line, asserted at every
dispatch boundary (claims P2/I2 and the bookkeeping needed to preserve
them). -/
structure LineInv (L : ProductionLine) : Prop where
  one_station : 1 ≤ L.num_stations
  stations_len : L.stations.length = L.num_stations.toNat
  wip_counter : L.system_wip =
    (L.entity_counter : ℤ) - (L.completed_jobs.length : ℤ)
  wip_jobs : L.system_wip = ((jobsInSystem L.stations).length : ℤ)
  wip_le : L.system_wip ≤ L.conwip_level
  jobs_nodup : (jobsInSystem L.stations).Nodup
  jobs_bounded : ∀ j ∈ jobsInSystem L.stations, j ≤ L.entity_counter
  pe_events : PEevents L
  pe_count : PEcount L
/-- The station value written by the `Idle` branch of
`_try_start_processing`. -/
def startedStation (st : Station) (job_id : ℕ) (clock : ℚ) : Station :=
  updateStatistics
    { st with state := StationState.PROCESSING,
              current_job := some job_id } clock
/-- The `PROCESSING_END` event scheduled by the `Idle` branch of
`_try_start_processing`. -/
def startedEvent (L : ProductionLine) (station_id job_id : ℕ)
    (st : Station) : Event :=
  { time := L.sim.clock + usedProcessingTime
      (startedStation st job_id L.sim.clock) (L.rng L.rng_index),
    event_type := EventType.PROCESSING_END,
    station_id := some station_id, entity_id := some job_id }
/-- The line state produced by the `Idle` branch of
`_try_start_processing`. -/
def startedLine (L : ProductionLine) (station_id job_id : ℕ)
    (st : Station) : ProductionLine :=
  { L with
    stations := L.stations.set station_id
      (startedStation st job_id L.sim.clock),
    sim := scheduleEvent L.sim (startedEvent L station_id job_id st),
    rng_index := L.rng_index +
      (if 0 < (startedStation st job_id L.sim.clock).cv_processing
       then 1 else 0) }
/-- The line state produced by the busy branch of
`_try_start_processing` when the job is appended to the queue. -/
def queuedLine (L : ProductionLine) (station_id job_id : ℕ)
    (st : Station) : ProductionLine :=
  let st2 := { st with queue := st.queue ++ [job_id] }
  { L with stations := L.stations.set station_id st2 }
/-- The station value written by `_handle_processing_end` before
routing: processed count incremented, job cleared, state set to `Idle`,
statistics flushed. -/
def finishedStation (st : Station) (clock : ℚ) : Station :=
  updateStatistics
    { st with total_processed := st.total_processed + 1,
              current_job := none,
              state := StationState.IDLE } clock
/-- The line state after `_handle_processing_end` pops the head of a
station's waiting queue (`station.queue.pop(0)`), before the drain's
`_try_start_processing` call. -/
def requeuedLine (L : ProductionLine) (s0 : ℕ) (rest : List ℕ) :
    ProductionLine :=
  let st2 := { L.stations.getD s0 default with queue := rest }
  { L with stations := L.stations.set s0 st2 }
/-- The simulator state right after `run` pops an event: the remaining
queue is installed and the clock advances to the event's time. -/
def poppedLine (L : ProductionLine) (t : ℚ) (q2 : List Event) :
    ProductionLine :=
  { L with sim := { L.sim with event_queue := q2, clock := t } }
/-- The line state after step 1 of `_handle_processing_end` (station
statistics updated, job cleared, state set to `Idle`). -/
def finishedLine (L : ProductionLine) (s0 : ℕ) : ProductionLine :=
  let st2 := finishedStation (L.stations.getD s0 default) L.sim.clock
  { L with stations := L.stations.set s0 st2 }
/-- The completion bookkeeping of `_handle_processing_end` at the last
station: completion timestamp recorded, job appended to
`completed_jobs`, WIP decremented. -/
def completedLine (L : ProductionLine) (s0 j0 : ℕ) : ProductionLine :=
  let L2 := finishedLine L s0
  { L2 with
    job_completion_times := (j0, L2.sim.clock) :: L2.job_completion_times,
    completed_jobs := L2.completed_jobs ++ [j0],
    system_wip := L2.system_wip - 1 }
/-- The CONWIP pull signal of `_handle_processing_end`: an immediate
`ARRIVAL` is scheduled when headroom exists. -/
def pulledLine (L : ProductionLine) : ProductionLine :=
  if L.system_wip < L.conwip_level then
    let new_arrival := Event.mk L.sim.clock EventType.ARRIVAL none none
    { L with sim := scheduleEvent L.sim new_arrival }
  else L
/-- The queue-drain step of `_handle_processing_end`: if the station
has a waiting job, pop the head and try to start it. -/
def drainLine (L : ProductionLine) (s0 : ℕ) : ProductionLine :=
  match L.stations[s0]? with
  | none => L
  | some station2 =>
    match station2.queue with
    | [] => L
    | next_job :: rest =>
      let st3 := { station2 with queue := rest }
      let L2 := { L with stations := L.stations.set s0 st3 }
      tryStartProcessing L2 s0 next_job
/-- `Except.isOk` projection used to express that a Python call
completed without raising. -/
def exceptOk {α : Type} (e : Except String α) : Bool :=
  match e with
  | Except.ok _ => true
  | Except.error _ => false
/-! ## Generic lemmas about the embedded operations -/
/-! ### Concrete instances used in the claim theorems and witnesses -/
def eventA : Event :=
  { time := 1, event_type := EventType.ARRIVAL, station_id := some 0 }
def eventB : Event :=
  { time := 1, event_type := EventType.ARRIVAL, station_id := some 1 }
def eventC : Event :=
  { time := 0, event_type := EventType.ARRIVAL, station_id := some 2 }
def heapABC : List Event :=
  heappush (heappush (heappush [] eventA) eventB) eventC
def stationD (i : ℕ) (m : ℚ) : Station :=
  { station_id := i, name := "Station " ++ toString (i + 1),
    mean_processing_time := m, cv_processing := 1 }
def lineC9 : ProductionLine :=
  { num_stations := 2, conwip_level := 5, arrival_rate := 1,
    cv_arrival := 1, stations := [stationD 0 1, stationD 1 2],
    rng := fun _ _ _ => 1 }
def stationC8 : Station :=
  { station_id := 0, name := "Station 1",
    mean_processing_time := 1 / 2000, cv_processing := 0 }
def lineC8 : ProductionLine :=
  { num_stations := 1, conwip_level := 1, arrival_rate := 1,
    cv_arrival := 1, stations := [stationC8], rng := fun _ _ _ => 0 }
def stationW8 : Station :=
  { station_id := 0, name := "Station 1",
    mean_processing_time := 2, cv_processing := 0 }
def lineW8 : ProductionLine :=
  { num_stations := 1, conwip_level := 1, arrival_rate := 1,
    cv_arrival := 1, stations := [stationW8], rng := fun _ _ _ => 7 }
def stationC2 : Station :=
  { station_id := 0, name := "Station 1",
    mean_processing_time := 1, cv_processing := 0 }
def lineC2 : ProductionLine :=
  { num_stations := 1, conwip_level := 1, arrival_rate := 1,
    cv_arrival := 1, stations := [stationC2],
    sim := { clock := 5 }, rng := fun _ _ _ => 1 }
def lineC2a : ProductionLine := tryStartProcessing lineC2 0 1
def lineC2b : ProductionLine :=
  handleProcessingEnd { lineC2a with sim := { lineC2a.sim with clock := 8 } }
    { time := 8, event_type := EventType.PROCESSING_END,
      station_id := some 0, entity_id := some 1 }
def lineC4 : ProductionLine :=
  { num_stations := 1, conwip_level := 0, arrival_rate := 1,
    cv_arrival := 1, stations := [stationD 0 1],
    sim := { event_queue :=
      [{ time := 50, event_type := EventType.ARRIVAL }] },
    rng := fun _ _ _ => 1 }
def lineW4 : ProductionLine :=
  { num_stations := 1, conwip_level := 1, arrival_rate := 1,
    cv_arrival := 1, stations := [stationD 0 1],
    sim := { event_queue :=
      [{ time := 3, event_type := EventType.ARRIVAL }] },
    rng := fun _ _ _ => 1 }
def lineW4next : ProductionLine :=
  (stepSim (some 10) none lineW4).getD lineW4
def lineW6 : ProductionLine :=
  { num_stations := 1, conwip_level := 1, arrival_rate := 1,
    cv_arrival := 1, stations := [stationD 0 1],
    sim := { clock := 4 }, entity_counter := 1, system_wip := 0,
    completed_jobs := [1], job_arrival_times := [(1, 0)],
    job_completion_times := [(1, 3)], rng := fun _ _ _ => 1 }
def eW1a : Event :=
  { time := 1, event_type := EventType.ARRIVAL, station_id := some 0 }
def eW1b : Event :=
  { time := 2, event_type := EventType.ARRIVAL, station_id := some 1 }
def heapW1 : List Event := [eW1a, eW1b]
def rngW : ℕ → ℚ → ℚ → ℚ := fun _ _ _ => 1
def emptyLineW : ProductionLine :=
  { num_stations := 0, conwip_level := 0, arrival_rate := 0,
    cv_arrival := 0, stations := [], rng := rngW }
def lineW3 : ProductionLine :=
  (initLine 1 1 (some [1]) (some [0]) 1 1 rngW).toOption.getD emptyLineW
def lineW10 : ProductionLine :=
  (initLine 2 3 (some [1, 2]) (some [0, 1]) 1 1 rngW).toOption.getD
    emptyLineW
theorem updateStatistics_cv (st : Station) (t : ℚ) :
    (updateStatistics st t).cv_processing = st.cv_processing := by
  unfold updateStatistics; split <;> rfl
theorem updateStatistics_mean (st : Station) (t : ℚ) :
    (updateStatistics st t).mean_processing_time =
      st.mean_processing_time := by
  unfold updateStatistics; split <;> rfl
theorem updateStatistics_state (st : Station) (t : ℚ) :
    (updateStatistics st t).state = st.state := by
  unfold updateStatistics; split <;> rfl
theorem updateStatistics_current_job (st : Station) (t : ℚ) :
    (updateStatistics st t).current_job = st.current_job := by
  unfold updateStatistics; split <;> rfl
theorem updateStatistics_queue (st : Station) (t : ℚ) :
    (updateStatistics st t).queue = st.queue := by
  unfold updateStatistics; split <;> rfl
theorem updateStatistics_total_processed (st : Station) (t : ℚ) :
    (updateStatistics st t).total_processed = st.total_processed := by
  unfold updateStatistics; split <;> rfl
theorem updateStatistics_tpt (st : Station) (t : ℚ) :
    (updateStatistics st t).total_processing_time =
      st.total_processing_time := by
  unfold updateStatistics; split <;> rfl
/-! ## Claim C7: boundary behaviour of `calculate_cycle_time` -/
/-- C7: for every mean processing time `te`, utilization `u` and CVs
`ca`, `ce`, `calculate_cycle_time` returns `+∞` if `u ≥ 1`, returns
`te` if `u ≤ 0`, and otherwise returns
`((ca²+ce²)/2)·(u/(1-u))·te + te`; being a total function of the
embedding it raises on none of these boundary inputs. -/
theorem claim_C7 (te u ca ce : ℚ) :
    (1 ≤ u → calculate_cycle_time te u ca ce = CTResult.inf) ∧
    (u ≤ 0 → calculate_cycle_time te u ca ce = CTResult.val te) ∧
    (0 < u → u < 1 → calculate_cycle_time te u ca ce =
      CTResult.val ((ca ^ 2 + ce ^ 2) / 2 * (u / (1 - u)) * te + te)) := by
  refine ⟨fun h => ?_, fun h => ?_, fun h1 h2 => ?_⟩
  · unfold calculate_cycle_time
    rw [if_pos h]
  · have hn1 : ¬ u ≥ 1 := by intro hc; linarith
    unfold calculate_cycle_time
    rw [if_neg hn1, if_pos h]
  · have hn1 : ¬ u ≥ 1 := by intro hc; linarith
    have hn2 : ¬ u ≤ 0 := by intro hc; linarith
    unfold calculate_cycle_time
    rw [if_neg hn1, if_neg hn2]
/-- Witness for C7 at concrete boundary inputs `u = 1`, `u = 0` and
`u = 1/2` with `te = 2`, `ca = ce = 1`. -/
theorem claim_C7_witness :
    calculate_cycle_time 2 1 1 1 = CTResult.inf ∧
    calculate_cycle_time 2 0 1 1 = CTResult.val 2 ∧
    calculate_cycle_time 2 (1 / 2) 1 1 =
      CTResult.val ((1 ^ 2 + 1 ^ 2) / 2 * ((1 / 2) / (1 - 1 / 2)) * 2 + 2) :=
  ⟨(claim_C7 2 1 1 1).1 (by norm_num),
   (claim_C7 2 0 1 1).2.1 (by norm_num),
   (claim_C7 2 (1 / 2) 1 1).2.2 (by norm_num) (by norm_num)⟩
/-! ## Claim C1: tie-breaking of equal-time events

`Event.__lt__` compares only `time`; there is no insertion-sequence
field, and CPython's `heapq` is not stable, so two events with equal
timestamps can pop in either order.  The counterexample pushes
`eventA`, then `eventB` (both at time 1), then `eventC` (time 0): the
pops return `eventC`, then `eventB` — the *later*-scheduled of the two
equal-time events — and only then `eventA`. -/
/-- C1 counterexample: `eventA` and `eventB` have identical timestamps
and were pushed in that order, yet after the intervening push of
`eventC` the queue pops `eventB` before `eventA`: dispatch among equal
timestamps is not insertion order. -/
theorem claim_C1_counterexample :
    eventA.time = eventB.time ∧
    heappop heapABC = some (eventC, [eventB, eventA]) ∧
    (heappop [eventB, eventA]).map Prod.fst = some eventB := by
  refine ⟨rfl, ?_, ?_⟩
  · simp [heapABC, heappush, heappop, siftdown, siftup, eventA, eventB,
      eventC]
  · simp [heappop, siftup, siftdown, eventA, eventB]
/-! ## Claim C5: constructor validation

`ProductionLine.__init__` performs no parameter validation: the only
way construction can fail is the `IndexError` raised while building the
stations list when a *provided* parameter list is shorter than
`num_stations`. -/
/-- C5 counterexample: construction with `num_stations = 0`,
`conwip_level = 0` and `arrival_rate = -1` — all invalid per the claim —
succeeds (no error is raised). -/
theorem claim_C5_counterexample :
    exceptOk (initLine 0 0 none none (-1) (-1) (fun _ _ _ => 1)) = true :=
  rfl
theorem exceptOk_bind_ok {α β : Type} (e : Except String α) (g : α → β) :
    exceptOk (e >>= fun a => Except.ok (g a)) = exceptOk e := by
  cases e <;> rfl
theorem exceptOk_mapM {α : Type} (f : ℕ → Except String α) (l : List ℕ) :
    exceptOk (l.mapM f) = l.all (fun i => exceptOk (f i)) := by
  induction l with
  | nil => rfl
  | cons a t ih =>
    rw [List.mapM_cons]
    cases hfa : f a with
    | error e =>
      simp only [List.all_cons, hfa]
      rfl
    | ok x =>
      simp only [List.all_cons, hfa]
      have : ((Except.ok x : Except String α) >>= fun x =>
          t.mapM f >>= fun xs => pure (x :: xs)) =
          t.mapM f >>= fun xs => pure (x :: xs) := rfl
      rw [this]
      cases hm : t.mapM f with
      | error e => simp only [← ih, hm]; rfl
      | ok xs => simp only [← ih, hm]; rfl
theorem forall_lt_iff_le {n m : ℕ} : (∀ i, i < n → i < m) ↔ n ≤ m := by
  constructor
  · intro h
    by_contra hc
    push_neg at hc
    exact absurd (h m hc) (lt_irrefl m)
  · intro h i hi
    omega
theorem buildStation_ok (mp cvl : List ℚ) (i : ℕ) :
    exceptOk (buildStation mp cvl i) =
      ((mp[i]?).isSome && (cvl[i]?).isSome) := by
  unfold buildStation
  cases mp[i]? <;> cases cvl[i]? <;> rfl
/-- C5 (amended): construction does not fail fast on invalid
parameters; it fails precisely when a provided parameter list is
shorter than `num_stations` (a Python `IndexError` while building the
stations), and succeeds on every other input, including
`num_stations < 1`, `conwip_level < 1`, non-positive processing times,
negative CVs and non-positive arrival rates. -/
theorem claim_C5 (ns cw : ℤ) (mpts cvs : Option (List ℚ)) (ar cva : ℚ)
    (rng : ℕ → ℚ → ℚ → ℚ) :
    exceptOk (initLine ns cw mpts cvs ar cva rng) = true ↔
      (ns.toNat ≤ (mpts.getD (List.replicate ns.toNat 1)).length ∧
       ns.toNat ≤ (cvs.getD (List.replicate ns.toNat 1)).length) := by
  unfold initLine
  rw [exceptOk_bind_ok, exceptOk_mapM, List.all_eq_true]
  constructor
  · intro h
    constructor
    · rw [← forall_lt_iff_le]
      intro i hi
      have hb := h i (List.mem_range.mpr hi)
      rw [buildStation_ok, Bool.and_eq_true] at hb
      by_contra hc
      rw [List.getElem?_eq_none (by omega)] at hb
      exact absurd hb.1 (by simp)
    · rw [← forall_lt_iff_le]
      intro i hi
      have hb := h i (List.mem_range.mpr hi)
      rw [buildStation_ok, Bool.and_eq_true] at hb
      by_contra hc
      rw [List.getElem?_eq_none (l := cvs.getD (List.replicate ns.toNat 1))
        (by omega)] at hb
      exact absurd hb.2 (by simp)
  · intro h i hi
    have hi2 := List.mem_range.mp hi
    rw [buildStation_ok, Bool.and_eq_true]
    constructor
    · rw [List.getElem?_eq_getElem (lt_of_lt_of_le hi2 h.1)]
      rfl
    · rw [List.getElem?_eq_getElem (lt_of_lt_of_le hi2 h.2)]
      rfl
/-! ## Claim C9: `update_parameters` with an invalid `station_id`

`self.stations[station_id]` uses Python list indexing: negative ids in
`[-num_stations, -1]` address stations from the end and are *modified*
without error; only ids outside `[-num_stations, num_stations)` raise
`IndexError`. -/
/-- C9 counterexample: on a two-station line, `update_parameters` with
the negative (hence, per the claim, invalid) `station_id = -1` raises
no error and modifies station 1 (the last station): its mean processing
time becomes `5`. -/
theorem claim_C9_counterexample :
    exceptOk (updateParameters lineC9 (-1) (some 5) none) = true ∧
    ((updateParameters lineC9 (-1) (some 5) none).toOption.map
      (fun L => (L.stations.getD 1 default).mean_processing_time)) =
      some 5 ∧
    (lineC9.stations.getD 1 default).mean_processing_time = 2 :=
  ⟨rfl, rfl, rfl⟩
/-- C9 (amended): `update_parameters` fails with an `IndexError` (and,
returning the error alone, modifies no station) exactly when
`station_id < -num_stations` or `station_id ≥ num_stations`; negative
ids in `[-num_stations, -1]` are valid Python indices counting from the
end and modify the corresponding station. -/
theorem claim_C9 (L : ProductionLine) (sid : ℤ)
    (m cv : Option ℚ)
    (h : sid < -(L.stations.length : ℤ) ∨ (L.stations.length : ℤ) ≤ sid) :
    updateParameters L sid m cv =
      Except.error "IndexError: list index out of range" := by
  unfold updateParameters
  rw [show pyIndex L.stations.length sid = none from ?_]
  unfold pyIndex
  rw [if_neg (by omega), if_neg (by omega)]
/-- Witness for C9 at the concrete out-of-range index `2` on the
two-station line. -/
theorem claim_C9_witness :
    ((2 : ℤ) < -(lineC9.stations.length : ℤ) ∨
      (lineC9.stations.length : ℤ) ≤ 2) ∧
    updateParameters lineC9 2 none none =
      Except.error "IndexError: list index out of range" :=
  ⟨by right; decide, claim_C9 lineC9 2 none none (by right; decide)⟩
/-! ## Claim C8: deterministic service times when `cv_processing = 0`

With `cv_processing = 0`, `get_processing_time` returns the mean, but
`_try_start_processing` clamps the duration used to schedule the
`PROCESSING_END` event to `max(0.001, ·)`: for means below `0.001` the
scheduled duration is `0.001`, not the mean. -/
/-- C8 counterexample: with `cv_processing = 0` and
`mean_processing_time = 1/2000 > 0`, the service duration used to
schedule the `PROCESSING_END` event is `1/1000` (the `max(0.001, ·)`
clamp), not the mean. -/
theorem claim_C8_counterexample :
    stationC8.cv_processing = 0 ∧
    0 < stationC8.mean_processing_time ∧
    usedProcessingTime stationC8 (fun _ _ => 0) = 1 / 1000 ∧
    usedProcessingTime stationC8 (fun _ _ => 0) ≠
      stationC8.mean_processing_time := by
  refine ⟨rfl, by norm_num [stationC8], ?_, ?_⟩
  · simp only [usedProcessingTime, getProcessingTime, stationC8]
    norm_num [max_def]
  · simp only [usedProcessingTime, getProcessingTime, stationC8]
    norm_num [max_def]
/-- C8 (amended): for a station with `cv_processing = 0`, the duration
used to schedule the `PROCESSING_END` event is the deterministic
`max(0.001, mean_processing_time)` — independent of the random oracle —
and hence equals `mean_processing_time` exactly whenever
`mean_processing_time ≥ 0.001`: an idle station started by
`_try_start_processing` schedules its completion at
`clock + mean_processing_time`. -/
theorem claim_C8 (L : ProductionLine) (s j : ℕ) (st : Station)
    (hs : L.stations[s]? = some st)
    (hidle : st.state = StationState.IDLE)
    (hcv : st.cv_processing = 0)
    (hm : 1 / 1000 ≤ st.mean_processing_time) :
    (tryStartProcessing L s j).sim.event_queue =
      heappush L.sim.event_queue
        (Event.mk (L.sim.clock + st.mean_processing_time)
          EventType.PROCESSING_END (some s) (some j)) := by
  have hres : usedProcessingTime (updateStatistics { st with state := StationState.PROCESSING, current_job := some j } L.sim.clock) (L.rng L.rng_index) = st.mean_processing_time := by
    unfold usedProcessingTime getProcessingTime
    simp only [updateStatistics_cv, updateStatistics_mean]
    rw [if_pos hcv]
    exact max_eq_right hm
  unfold tryStartProcessing
  rw [hs]
  dsimp only
  rw [if_pos hidle]
  simp only [scheduleEvent]
  rw [hres]
/-- Witness for C8 on a concrete idle station with mean `2`,
`cv_processing = 0`. -/
theorem claim_C8_witness :
    (lineW8.stations[0]? = some stationW8 ∧
     stationW8.state = StationState.IDLE ∧
     stationW8.cv_processing = 0 ∧
     (1 / 1000 : ℚ) ≤ stationW8.mean_processing_time) ∧
    (tryStartProcessing lineW8 0 1).sim.event_queue =
      heappush lineW8.sim.event_queue
        (Event.mk (lineW8.sim.clock + stationW8.mean_processing_time)
          EventType.PROCESSING_END (some 0) (some 1)) :=
  ⟨⟨rfl, rfl, rfl, by norm_num [stationW8]⟩,
   claim_C8 lineW8 0 1 stationW8 rfl rfl rfl (by norm_num [stationW8])⟩
/-! ## Claim C2: attribution of elapsed time at state transitions

In the source, both `_try_start_processing` and
`_handle_processing_end` assign `station.state` *before* calling
`station.update_statistics(clock)`, so the elapsed interval is
attributed to the state being *entered*, not the state being exited:
idle intervals ending in a start of processing are attributed to
`Processing` (i.e. dropped), and processing intervals ending in a
completion are added to `total_idle_time`. -/
/-- C2 failing input, evaluated on the code: the station is Idle on
`[0, 5)` and Processing on `[5, 8]`.  At the Idle→Processing transition
(`_try_start_processing` at clock 5) the claim requires the 5 idle time
units to be added to `total_idle_time`, but the code records `0`; at
the Processing→Idle transition (`_handle_processing_end` at clock 8)
the claim requires `total_idle_time` to remain unchanged, but the code
adds the 3 *processing* time units to it. -/
theorem claim_C2_code_eval :
    (lineC2a.stations.getD 0 default).total_idle_time = 0 ∧
    (lineC2a.stations.getD 0 default).state = StationState.PROCESSING ∧
    (lineC2b.stations.getD 0 default).total_idle_time = 3 ∧
    (lineC2b.stations.getD 0 default).state = StationState.IDLE := by
  refine ⟨rfl, rfl, ?_, ?_⟩
  · simp only [lineC2b, lineC2a, lineC2, handleProcessingEnd,
      tryStartProcessing, updateStatistics, stationC2, scheduleEvent]
    norm_num
  · simp only [lineC2b, lineC2a, lineC2, handleProcessingEnd,
      tryStartProcessing, updateStatistics, stationC2, scheduleEvent]
    norm_num
/-! ## Claim C4: `max_time` termination of the run loop

The loop checks `clock >= max_time` *before* popping, so no event is
popped once the clock has reached the bound — but the claim that the
clock never exceeds `max_time` is false: `clock = event.time` is
assigned from the popped event, which may lie beyond the bound. -/
/-- C4 counterexample: running with `max_time = 10` on a queue holding
a single arrival at time `50`, the clock passes the bound check (it is
`0 < 10` before the pop) and is then set to `50 > 10`; after the run
the clock stands at `50`, exceeding `max_time`. -/
theorem claim_C4_counterexample :
    (runFuel 5 (some 10) none lineC4).sim.clock = 50 ∧
    ¬ ((runFuel 5 (some 10) none lineC4).sim.clock ≤ 10) := by
  refine ⟨rfl, ?_⟩
  rw [show (runFuel 5 (some 10) none lineC4).sim.clock = 50 from rfl]
  norm_num
/-- C4 (amended): `run` checks the `max_time` bound before popping each
event — a loop iteration dispatches an event only from a state whose
clock is strictly below the bound — but the clock is then set to the
popped event's time, which can exceed `max_time` (see the
counterexample); so the bound limits further popping, not the final
clock value. -/
theorem claim_C4 (T : ℚ) (max_events : Option ℕ) (L L2 : ProductionLine)
    (h : stepSim (some T) max_events L = some L2) :
    L.sim.clock < T := by
  unfold stepSim at h
  by_contra hc
  push_neg at hc
  rw [if_neg] at h
  · rw [if_pos (by rw [decide_eq_true_eq]; exact hc)] at h
    exact Option.noConfusion h
  · intro hemp
    rw [if_pos hemp] at h
    exact Option.noConfusion h
/-- Witness for C4: a concrete loop iteration under `max_time = 10`
dispatches an event, and indeed the pre-dispatch clock `0` is below the
bound. -/
theorem claim_C4_witness :
    stepSim (some 10) none lineW4 = some lineW4next ∧
    lineW4.sim.clock < 10 :=
  ⟨rfl, claim_C4 10 none lineW4 lineW4next rfl⟩
/-! ## Claim C6: Little's Law identity in `get_statistics`

`avg_wip` is *defined* as `throughput * avg_cycle_time` when
`avg_cycle_time > 0` and as `0` otherwise, so the identity holds with
zero error whenever the recorded cycle times are non-negative (which
holds on every run, completion timestamps being taken at or after the
corresponding arrival timestamps). -/
/-- C6: for every line state whose recorded cycle times are
non-negative (true of every reachable run state) and every warmup, the
statistics returned by `get_statistics` satisfy Little's Law exactly:
`|avg_wip − throughput·avg_cycle_time| = 0 ≤ 1e-9`, including the
empty-completions case where both sides are `0`. -/
theorem claim_C6 (L : ProductionLine) (warmup : ℚ)
    (h : ∀ c ∈ cycleTimes L warmup, 0 ≤ c) :
    |(getStatistics L warmup).avg_wip -
      (getStatistics L warmup).throughput *
        (getStatistics L warmup).avg_cycle_time| ≤ 1 / 1000000000 := by
  unfold getStatistics
  dsimp only
  by_cases hpos :
      (if cycleTimes L warmup ≠ [] then
        (cycleTimes L warmup).sum / ((cycleTimes L warmup).length : ℚ)
      else 0) > 0
  · rw [if_pos hpos, sub_self, abs_zero]
    norm_num
  · rw [if_neg hpos]
    have hct :
        (if cycleTimes L warmup ≠ [] then
          (cycleTimes L warmup).sum / ((cycleTimes L warmup).length : ℚ)
        else 0) = 0 := by
      push_neg at hpos
      refine le_antisymm hpos ?_
      by_cases hemp : cycleTimes L warmup ≠ []
      · rw [if_pos hemp]
        apply div_nonneg (List.sum_nonneg h)
        exact Nat.cast_nonneg _
      · rw [if_neg hemp]
    rw [hct, mul_zero, sub_zero, abs_zero]
    norm_num
/-- Witness for C6 on a concrete state with one completed job (cycle
time `3`, clock `4`). -/
theorem cycleTimes_lineW6 : cycleTimes lineW6 0 = [3] := by
  norm_num [cycleTimes, dictGet, lineW6, List.find?, List.filterMap_cons,
    List.filterMap_nil, sub_zero]
theorem claim_C6_witness :
    (∀ c ∈ cycleTimes lineW6 0, 0 ≤ c) ∧
    |(getStatistics lineW6 0).avg_wip -
      (getStatistics lineW6 0).throughput *
        (getStatistics lineW6 0).avg_cycle_time| ≤ 1 / 1000000000 :=
  ⟨by simp only [cycleTimes_lineW6, List.mem_singleton]; norm_num,
   claim_C6 lineW6 0
     (by simp only [cycleTimes_lineW6, List.mem_singleton]; norm_num)⟩
/-! ## Verified properties of the `heapq` embedding -/
theorem getD_of_lt (l : List Event) (i : ℕ) (h : i < l.length) :
    l.getD i default = l[i] := by
  rw [List.getD_eq_getElem?_getD, List.getElem?_eq_getElem h]
  rfl
theorem getD_set_ne (l : List Event) (i j : ℕ) (x : Event) (hji : j ≠ i) :
    (l.set j x).getD i default = l.getD i default := by
  rw [List.getD_eq_getElem?_getD, List.getD_eq_getElem?_getD,
    List.getElem?_set_ne hji]
theorem set_perm (l : List Event) (i : ℕ) (b : Event) (h : i < l.length) :
    (l.set i b).Perm (b :: l.eraseIdx i) := by
  rw [List.set_eq_take_cons_drop b h, List.eraseIdx_eq_take_drop_succ]
  exact List.perm_middle
theorem cons_getD_eraseIdx_perm (l : List Event) (i : ℕ)
    (h : i < l.length) : l.Perm (l.getD i default :: l.eraseIdx i) := by
  rw [getD_of_lt l i h, List.eraseIdx_eq_take_drop_succ]
  conv_lhs => rw [← List.take_append_drop i l,
    List.drop_eq_getElem_cons h]
  exact List.perm_middle
theorem set_set_perm (l : List Event) (i j : ℕ) (b : Event) (hij : i ≠ j)
    (hi : i < l.length) (hj : j < l.length) :
    ((l.set j (l.getD i default)).set i b).Perm (l.set j b) := by
  have hlen : i < (l.set j (l.getD i default)).length := by
    rw [List.length_set]; exact hi
  have h1 := set_perm (l.set j (l.getD i default)) i b hlen
  have h2 := set_perm l j b hj
  have h3 := set_perm l j (l.getD i default) hj
  have h4 := cons_getD_eraseIdx_perm (l.set j (l.getD i default)) i hlen
  rw [getD_set_ne l i j (l.getD i default) (Ne.symm hij)] at h4
  have h6 : (l.eraseIdx j).Perm
      ((l.set j (l.getD i default)).eraseIdx i) :=
    (h3.symm.trans h4).cons_inv
  exact h1.trans (((h6.symm).cons b).trans h2.symm)
theorem siftdown_perm (startpos pos : ℕ) (heap : List Event)
    (item : Event) (h : pos < heap.length) :
    (siftdown heap startpos pos item).Perm (heap.set pos item) := by
  induction pos using Nat.strong_induction_on generalizing heap with
  | _ pos ih =>
    rw [siftdown]
    split
    · dsimp only
      split
      · rename_i hlt hswap
        have hpp : (pos - 1) / 2 < pos := by
          have : (pos - 1) / 2 ≤ pos - 1 := Nat.div_le_self _ _
          omega
        have hpl : (pos - 1) / 2 <
            (heap.set pos (heap.getD ((pos - 1) / 2) default)).length := by
          rw [List.length_set]; omega
        exact (ih ((pos - 1) / 2) hpp _ hpl).trans
          (set_set_perm heap ((pos - 1) / 2) pos item (by omega)
            (by omega) h)
      · exact List.Perm.refl _
    · exact List.Perm.refl _
theorem siftup_perm (startpos pos : ℕ) (heap : List Event) (item : Event)
    (h : pos < heap.length) :
    (siftup heap startpos pos item).Perm (heap.set pos item) := by
  rw [siftup]
  dsimp only
  split
  · rename_i hlt
    split
    · rename_i hcond
      have hcl : 2 * pos + 1 + 1 < heap.length := hcond.1
      have hlen2 : 2 * pos + 1 + 1 <
          (heap.set pos (heap.getD (2 * pos + 1 + 1) default)).length := by
        rw [List.length_set]; exact hcl
      exact (siftup_perm startpos (2 * pos + 1 + 1)
        (heap.set pos (heap.getD (2 * pos + 1 + 1) default)) item
        hlen2).trans
        (set_set_perm heap (2 * pos + 1 + 1) pos item (by omega) hcl h)
    · rename_i hcond
      have hlen2 : 2 * pos + 1 <
          (heap.set pos (heap.getD (2 * pos + 1) default)).length := by
        rw [List.length_set]; exact hlt
      exact (siftup_perm startpos (2 * pos + 1)
        (heap.set pos (heap.getD (2 * pos + 1) default)) item
        hlen2).trans
        (set_set_perm heap (2 * pos + 1) pos item (by omega) hlt h)
  · exact siftdown_perm startpos pos heap item h
termination_by heap.length - pos
decreasing_by
  · rw [List.length_set]
    omega
  · rw [List.length_set]
    omega
theorem set_append_last (h : List Event) (e : Event) :
    (h ++ [e]).set h.length e = h ++ [e] := by
  induction h with
  | nil => rfl
  | cons a t ih =>
    show a :: (t ++ [e]).set t.length e = a :: (t ++ [e])
    rw [ih]
theorem heappush_perm (h : List Event) (e : Event) :
    (heappush h e).Perm (e :: h) := by
  unfold heappush
  have hl : h.length < (h ++ [e]).length := by
    rw [List.length_append]
    simp
  exact ((siftdown_perm 0 h.length (h ++ [e]) e hl).trans
    (by rw [set_append_last])).trans (List.perm_append_singleton e h)
theorem heappop_perm (h : List Event) (e : Event) (rest : List Event)
    (hpop : heappop h = some (e, rest)) : h.Perm (e :: rest) := by
  match h with
  | [] => exact Option.noConfusion hpop
  | [a] =>
    rw [show heappop [a] = some (a, ([] : List Event)) from rfl] at hpop
    injection hpop with hp
    injection hp with h1 h2
    rw [← h1, ← h2]
  | a :: b :: t =>
    have hne : (a :: b :: t) ≠ [] := by simp
    unfold heappop at hpop
    rw [List.getLast?_eq_getLast (a :: b :: t) hne] at hpop
    simp only [List.dropLast_cons₂, List.isEmpty_cons, Bool.false_eq_true,
      if_false, List.headD_cons, List.set_cons_zero] at hpop
    injection hpop with hp
    injection hp with h1 h2
    have hsp := siftup_perm 0 0
      ((a :: b :: t).getLast hne :: (b :: t).dropLast)
      ((a :: b :: t).getLast hne) (by simp)
    rw [List.set_cons_zero] at hsp
    have hrest : rest.Perm
        ((a :: b :: t).getLast hne :: (b :: t).dropLast) := by
      rw [← h2]
      exact hsp
    have hdecomp : a :: b :: t = a :: ((b :: t).dropLast ++
        [(a :: b :: t).getLast hne]) := by
      conv_lhs => rw [← List.dropLast_concat_getLast hne]
      rw [List.dropLast_cons₂]
      rfl
    rw [hdecomp, ← h1]
    exact ((List.perm_append_singleton _ _).trans hrest.symm).cons a
theorem heappop_fst (h : List Event) (e : Event) (rest : List Event)
    (hpop : heappop h = some (e, rest)) : e = h.headD default := by
  match h with
  | [] => exact Option.noConfusion hpop
  | [a] =>
    rw [show heappop [a] = some (a, ([] : List Event)) from rfl] at hpop
    injection hpop with hp
    injection hp with h1 _
    rw [← h1]
    rfl
  | a :: b :: t =>
    have hne : (a :: b :: t) ≠ [] := by simp
    unfold heappop at hpop
    rw [List.getLast?_eq_getLast (a :: b :: t) hne] at hpop
    simp only [List.dropLast_cons₂, List.isEmpty_cons, Bool.false_eq_true,
      if_false, List.headD_cons, List.set_cons_zero] at hpop
    injection hpop with hp
    injection hp with h1 _
    rw [← h1]
    rfl
theorem heapPropB_min (h : List Event) (hp : heapPropB h = true) :
    ∀ j, j < h.length →
      (h.getD 0 default).time ≤ (h.getD j default).time := by
  intro j
  induction j using Nat.strong_induction_on with
  | _ j ih =>
    intro hj
    rcases Nat.eq_zero_or_pos j with hz | hz1
    · rw [hz]
    · have hpar := (List.all_eq_true.mp hp) j (List.mem_range.mpr hj)
      rw [Bool.or_eq_true] at hpar
      rcases hpar with habs | hle
      · exact absurd (decide_eq_true_eq.mp habs) (by omega)
      · have h2 := decide_eq_true_eq.mp hle
        have hd2 : (j - 1) / 2 ≤ j - 1 := Nat.div_le_self _ _
        have h3 := ih ((j - 1) / 2) (by omega) (by omega)
        exact le_trans h3 h2
/-- C1 (amended): `pop` guarantees only minimality of the popped
timestamp — for every queue satisfying the binary-heap invariant, the
popped event has a time `≤` the time of every event in the queue; among
events with identical timestamps the dispatch order is determined by
the heap layout, not by insertion order (see the counterexample). -/
theorem claim_C1 (h : List Event) (e : Event) (rest : List Event)
    (hp : heapPropB h = true) (hpop : heappop h = some (e, rest)) :
    ∀ x ∈ h, e.time ≤ x.time := by
  intro x hx
  obtain ⟨j, hj, hgx⟩ := List.getElem_of_mem hx
  have hfst := heappop_fst h e rest hpop
  have h0 : h.headD default = h.getD 0 default := by
    cases h <;> rfl
  have hmin := heapPropB_min h hp j hj
  rw [hfst, h0]
  rw [getD_of_lt h j hj, hgx] at hmin
  exact hmin
/-- Witness for C1 (amended) on a concrete two-element heap. -/
theorem claim_C1_witness :
    (heapPropB heapW1 = true ∧ heappop heapW1 = some (eW1a, [eW1b])) ∧
    ∀ x ∈ heapW1, eW1a.time ≤ x.time :=
  ⟨⟨by decide, by simp [heappop, siftup, siftdown, heapW1, eW1a, eW1b]⟩,
   claim_C1 heapW1 eW1a [eW1b] (by decide)
     (by simp [heappop, siftup, siftdown, heapW1, eW1a, eW1b])⟩
/-! ## Lemmas about `jobsInSystem` -/
theorem stGetD_of_lt (l : List Station) (i : ℕ) (h : i < l.length) :
    l.getD i default = l[i] := by
  rw [List.getD_eq_getElem?_getD, List.getElem?_eq_getElem h]
  rfl
theorem stGetD_set_ne (l : List Station) (i j : ℕ) (x : Station)
    (hji : j ≠ i) : (l.set j x).getD i default = l.getD i default := by
  rw [List.getD_eq_getElem?_getD, List.getD_eq_getElem?_getD,
    List.getElem?_set_ne hji]
theorem jobsInSystem_append (l1 l2 : List Station) :
    jobsInSystem (l1 ++ l2) = jobsInSystem l1 ++ jobsInSystem l2 := by
  unfold jobsInSystem
  rw [List.map_append, List.flatten_append]
theorem jobsInSystem_cons (st : Station) (l : List Station) :
    jobsInSystem (st :: l) = contrib st ++ jobsInSystem l := rfl
theorem jobsInSystem_decomp (stations : List Station) (s : ℕ)
    (hs : s < stations.length) :
    jobsInSystem stations = jobsInSystem (stations.take s) ++
      (contrib (stations.getD s default) ++
       jobsInSystem (stations.drop (s + 1))) := by
  rw [stGetD_of_lt stations s hs]
  conv_lhs => rw [← List.take_append_drop s stations,
    List.drop_eq_getElem_cons hs]
  rw [jobsInSystem_append, jobsInSystem_cons]
theorem jobsInSystem_set_decomp (stations : List Station) (s : ℕ)
    (st2 : Station) (hs : s < stations.length) :
    jobsInSystem (stations.set s st2) = jobsInSystem (stations.take s) ++
      (contrib st2 ++ jobsInSystem (stations.drop (s + 1))) := by
  rw [List.set_eq_take_cons_drop st2 hs, jobsInSystem_append,
    jobsInSystem_cons]
theorem jobs_set_cons_perm (stations : List Station) (s : ℕ)
    (st2 : Station) (j : ℕ) (hs : s < stations.length)
    (hc : (contrib st2).Perm (j :: contrib (stations.getD s default))) :
    (jobsInSystem (stations.set s st2)).Perm
      (j :: jobsInSystem stations) := by
  rw [jobsInSystem_set_decomp stations s st2 hs,
    jobsInSystem_decomp stations s hs]
  exact ((hc.append_right _).append_left _).trans List.perm_middle
theorem jobs_set_uncons_perm (stations : List Station) (s : ℕ)
    (st2 : Station) (j : ℕ) (hs : s < stations.length)
    (hc : (contrib (stations.getD s default)).Perm (j :: contrib st2)) :
    (jobsInSystem stations).Perm
      (j :: jobsInSystem (stations.set s st2)) := by
  rw [jobsInSystem_decomp stations s hs,
    jobsInSystem_set_decomp stations s st2 hs]
  exact ((hc.append_right _).append_left _).trans List.perm_middle
theorem mem_jobs_of_mem_contrib (stations : List Station) (s : ℕ)
    (x : ℕ) (hs : s < stations.length)
    (hx : x ∈ contrib (stations.getD s default)) :
    x ∈ jobsInSystem stations := by
  rw [jobsInSystem_decomp stations s hs]
  exact List.mem_append_right _ (List.mem_append_left _ hx)
/-! ## The branch structure of `_try_start_processing` -/
theorem stGetD_set_self (l : List Station) (i : ℕ) (h : i < l.length)
    (x : Station) : (l.set i x).getD i default = x := by
  rw [List.getD_eq_getElem?_getD, List.getElem?_set_self h]
  rfl
theorem contrib_started (st : Station) (j : ℕ) (c : ℚ) :
    contrib (startedStation st j c) = j :: st.queue := by
  unfold contrib startedStation
  rw [updateStatistics_state, updateStatistics_current_job,
    updateStatistics_queue]
  rfl
theorem contrib_of_not_processing (st : Station)
    (h : ¬ st.state = StationState.PROCESSING) :
    contrib st = st.queue := by
  unfold contrib
  rw [if_neg h]
  rfl
theorem contrib_of_processing (st : Station) (j : ℕ)
    (hp : st.state = StationState.PROCESSING)
    (hj : st.current_job = some j) :
    contrib st = j :: st.queue := by
  unfold contrib
  rw [if_pos hp, hj]
  rfl
theorem contrib_queue_append (st : Station) (j : ℕ) :
    contrib { st with queue := st.queue ++ [j] } =
      contrib st ++ [j] := by
  unfold contrib
  dsimp only
  rw [List.append_assoc]
theorem startedStation_state (st : Station) (j : ℕ) (c : ℚ) :
    (startedStation st j c).state = StationState.PROCESSING := by
  unfold startedStation
  rw [updateStatistics_state]
theorem startedStation_job (st : Station) (j : ℕ) (c : ℚ) :
    (startedStation st j c).current_job = some j := by
  unfold startedStation
  rw [updateStatistics_current_job]
theorem tryStart_cases (L : ProductionLine) (s j : ℕ) (st : Station)
    (hs : L.stations[s]? = some st) :
    (st.state = StationState.IDLE ∧
      tryStartProcessing L s j = startedLine L s j st) ∨
    (¬ st.state = StationState.IDLE ∧ j ∈ st.queue ∧
      tryStartProcessing L s j = L) ∨
    (¬ st.state = StationState.IDLE ∧ ¬ j ∈ st.queue ∧
      tryStartProcessing L s j = queuedLine L s j st) := by
  unfold tryStartProcessing
  rw [hs]
  dsimp only
  by_cases h1 : st.state = StationState.IDLE
  · left
    refine ⟨h1, ?_⟩
    rw [if_pos h1]
    rfl
  · rw [if_neg h1]
    by_cases h2 : j ∈ st.queue
    · right; left
      exact ⟨h1, h2, by rw [if_pos h2]⟩
    · right; right
      refine ⟨h1, h2, ?_⟩
      rw [if_neg h2]
      rfl
/-! ## Invariant preservation through `_try_start_processing` -/
theorem startedLine_invariant (L : ProductionLine) (s j : ℕ)
    (st : Station) (hs : s < L.stations.length)
    (hgd : L.stations.getD s default = st)
    (hidle : st.state = StationState.IDLE)
    (hpe : PEevents L) (hpc : PEcount L) :
    (jobsInSystem (startedLine L s j st).stations).Perm
      (j :: jobsInSystem L.stations) ∧
    PEevents (startedLine L s j st) ∧
    PEcount (startedLine L s j st) := by
  have hnp : ¬ st.state = StationState.PROCESSING := by
    rw [hidle]
    decide
  have hcount0 : countPE s L.sim.event_queue = 0 := by
    rw [hpc s hs, hgd, if_neg hnp]
  refine ⟨?_, ?_, ?_⟩
  · apply jobs_set_cons_perm L.stations s _ j hs
    rw [contrib_started, hgd, contrib_of_not_processing st hnp]
  · intro e2 he2
    have hmem := ((heappush_perm L.sim.event_queue
      (startedEvent L s j st)).mem_iff).mp he2
    rcases List.mem_cons.mp hmem with hev | hold
    · right
      subst hev
      refine ⟨rfl, s, rfl, ?_, ?_, ?_, ?_⟩
      · show s < (L.stations.set s _).length
        rw [List.length_set]
        exact hs
      · show ((L.stations.set s _).getD s default).state = _
        rw [stGetD_set_self L.stations s hs]
        exact startedStation_state st j L.sim.clock
      · show some j = ((L.stations.set s _).getD s default).current_job
        rw [stGetD_set_self L.stations s hs, startedStation_job]
      · show ((L.stations.set s _).getD s default).current_job ≠ none
        rw [stGetD_set_self L.stations s hs, startedStation_job]
        exact Option.noConfusion
    · rcases hpe e2 hold with harr | ⟨hpety, s2, hsid, hs2, hst2, hent, hnn⟩
      · left
        exact harr
      · right
        by_cases hss : s2 = s
        · subst hss
          exfalso
          have := List.countP_eq_zero.mp hcount0 e2 hold
          apply this
          rw [decide_eq_true_eq]
          exact ⟨hpety, hsid⟩
        · have hne : s ≠ s2 := fun hh => hss hh.symm
          refine ⟨hpety, s2, hsid, ?_, ?_, ?_, ?_⟩
          · show s2 < (L.stations.set s _).length
            rw [List.length_set]
            exact hs2
          · show ((L.stations.set s _).getD s2 default).state = _
            rw [stGetD_set_ne L.stations s2 s _ hne]
            exact hst2
          · show e2.entity_id =
              ((L.stations.set s _).getD s2 default).current_job
            rw [stGetD_set_ne L.stations s2 s _ hne]
            exact hent
          · show ((L.stations.set s _).getD s2 default).current_job ≠ none
            rw [stGetD_set_ne L.stations s2 s _ hne]
            exact hnn
  · intro s2 hs2
    have hstations : (startedLine L s j st).stations =
        L.stations.set s (startedStation st j L.sim.clock) := rfl
    have hqueue : (startedLine L s j st).sim.event_queue =
        heappush L.sim.event_queue (startedEvent L s j st) := rfl
    rw [hstations, List.length_set] at hs2
    unfold countPE
    rw [hqueue, hstations]
    have hcp := (heappush_perm L.sim.event_queue
      (startedEvent L s j st)).countP_eq
      (fun e => decide (e.event_type = EventType.PROCESSING_END ∧
                        e.station_id = some s2))
    rw [hcp, List.countP_cons]
    by_cases hss : s2 = s
    · subst hss
      rw [if_pos (by rw [decide_eq_true_eq]; exact ⟨rfl, rfl⟩)]
      have hc0 : L.sim.event_queue.countP
          (fun e => decide (e.event_type = EventType.PROCESSING_END ∧
                            e.station_id = some s2)) = 0 := hcount0
      rw [hc0, stGetD_set_self L.stations s2 hs2,
        if_pos (startedStation_state st j L.sim.clock)]
    · have hne : s ≠ s2 := fun hh => hss hh.symm
      rw [if_neg (by
        rw [decide_eq_true_eq]
        intro hcon
        exact hne (Option.some.injEq .. ▸ (hcon.2 : some s = some s2)))]
      rw [stGetD_set_ne L.stations s2 s _ hne]
      have hco := hpc s2 hs2
      unfold countPE at hco
      rw [hco]
      omega
theorem queuedLine_invariant (L : ProductionLine) (s j : ℕ)
    (st : Station) (hs : s < L.stations.length)
    (hgd : L.stations.getD s default = st)
    (hpe : PEevents L) (hpc : PEcount L) :
    (jobsInSystem (queuedLine L s j st).stations).Perm
      (j :: jobsInSystem L.stations) ∧
    PEevents (queuedLine L s j st) ∧
    PEcount (queuedLine L s j st) := by
  have hstations : (queuedLine L s j st).stations =
      L.stations.set s { st with queue := st.queue ++ [j] } := rfl
  have hqueue : (queuedLine L s j st).sim.event_queue =
      L.sim.event_queue := rfl
  have hsteq : ({ st with queue := st.queue ++ [j] } : Station).state =
      st.state := rfl
  have hstcj : ({ st with queue := st.queue ++ [j] } : Station).current_job =
      st.current_job := rfl
  refine ⟨?_, ?_, ?_⟩
  · rw [hstations]
    apply jobs_set_cons_perm _ _ _ _ hs
    rw [contrib_queue_append, hgd]
    exact List.perm_append_singleton j (contrib st)
  · intro e2 he2
    rw [hqueue] at he2
    rcases hpe e2 he2 with harr | ⟨hpety, s2, hsid, hs2, hst2, hent, hnn⟩
    · left
      exact harr
    · right
      by_cases hss : s2 = s
      · subst hss
        rw [hgd] at hst2 hent hnn
        refine ⟨hpety, s2, hsid, ?_, ?_, ?_, ?_⟩
        · rw [hstations, List.length_set]
          exact hs2
        · rw [hstations, stGetD_set_self L.stations s2 hs2, hsteq]
          exact hst2
        · rw [hstations, stGetD_set_self L.stations s2 hs2, hstcj]
          exact hent
        · rw [hstations, stGetD_set_self L.stations s2 hs2, hstcj]
          exact hnn
      · have hne : s ≠ s2 := fun hh => hss hh.symm
        refine ⟨hpety, s2, hsid, ?_, ?_, ?_, ?_⟩
        · rw [hstations, List.length_set]
          exact hs2
        · rw [hstations, stGetD_set_ne L.stations s2 s _ hne]
          exact hst2
        · rw [hstations, stGetD_set_ne L.stations s2 s _ hne]
          exact hent
        · rw [hstations, stGetD_set_ne L.stations s2 s _ hne]
          exact hnn
  · intro s2 hs2
    rw [hstations, List.length_set] at hs2
    unfold countPE
    rw [hqueue, hstations]
    have hco := hpc s2 hs2
    unfold countPE at hco
    by_cases hss : s2 = s
    · subst hss
      rw [stGetD_set_self L.stations s2 hs2, hsteq, hco, hgd]
    · have hne : s ≠ s2 := fun hh => hss hh.symm
      rw [stGetD_set_ne L.stations s2 s _ hne, hco]
theorem tryStart_invariant (L : ProductionLine) (s j : ℕ)
    (hs : s < L.stations.length)
    (hfresh : j ∉ jobsInSystem L.stations)
    (hpe : PEevents L) (hpc : PEcount L) :
    (jobsInSystem (tryStartProcessing L s j).stations).Perm
      (j :: jobsInSystem L.stations) ∧
    PEevents (tryStartProcessing L s j) ∧
    PEcount (tryStartProcessing L s j) ∧
    (tryStartProcessing L s j).stations.length = L.stations.length ∧
    (tryStartProcessing L s j).num_stations = L.num_stations ∧
    (tryStartProcessing L s j).conwip_level = L.conwip_level ∧
    (tryStartProcessing L s j).entity_counter = L.entity_counter ∧
    (tryStartProcessing L s j).system_wip = L.system_wip ∧
    (tryStartProcessing L s j).completed_jobs = L.completed_jobs ∧
    (∀ s2, s2 ≠ s →
      (tryStartProcessing L s j).stations.getD s2 default =
        L.stations.getD s2 default) := by
  have hsome : L.stations[s]? = some (L.stations.getD s default) := by
    rw [stGetD_of_lt L.stations s hs]
    exact List.getElem?_eq_getElem hs
  rcases tryStart_cases L s j (L.stations.getD s default) hsome with
    ⟨hidle, heq⟩ | ⟨hbusy, hmem, heq⟩ | ⟨hbusy, hmem, heq⟩
  · rw [heq]
    obtain ⟨h1, h2, h3⟩ := startedLine_invariant L s j
      (L.stations.getD s default) hs rfl hidle hpe hpc
    refine ⟨h1, h2, h3, ?_, rfl, rfl, rfl, rfl, rfl, ?_⟩
    · show (L.stations.set s _).length = _
      rw [List.length_set]
    · intro s2 hs2
      show (L.stations.set s _).getD s2 default = _
      exact stGetD_set_ne L.stations s2 s _ (fun hh => hs2 hh.symm)
  · exfalso
    apply hfresh
    apply mem_jobs_of_mem_contrib L.stations s j hs
    unfold contrib
    exact List.mem_append_right _ hmem
  · rw [heq]
    obtain ⟨h1, h2, h3⟩ := queuedLine_invariant L s j
      (L.stations.getD s default) hs rfl hpe hpc
    refine ⟨h1, h2, h3, ?_, rfl, rfl, rfl, rfl, rfl, ?_⟩
    · show (L.stations.set s _).length = _
      rw [List.length_set]
    · intro s2 hs2
      show (L.stations.set s _).getD s2 default = _
      exact stGetD_set_ne L.stations s2 s _ (fun hh => hs2 hh.symm)
/-! ## Helper lemmas for handler-level invariant preservation -/
theorem PEevents_set_apop (L : ProductionLine) (s : ℕ) (st2 : Station)
    (hcount0 : countPE s L.sim.event_queue = 0)
    (hpe : PEevents L) :
    PEevents { L with stations := L.stations.set s st2 } := by
  intro e2 he2
  rcases hpe e2 he2 with harr | ⟨hpety, s2, hsid, hs2, hst2, hent, hnn⟩
  · left
    exact harr
  · right
    by_cases hss : s2 = s
    · subst hss
      exfalso
      have := List.countP_eq_zero.mp hcount0 e2 he2
      apply this
      rw [decide_eq_true_eq]
      exact ⟨hpety, hsid⟩
    · have hne : s ≠ s2 := fun hh => hss hh.symm
      refine ⟨hpety, s2, hsid, ?_, ?_, ?_, ?_⟩
      · show s2 < (L.stations.set s st2).length
        rw [List.length_set]
        exact hs2
      · show ((L.stations.set s st2).getD s2 default).state = _
        rw [stGetD_set_ne L.stations s2 s st2 hne]
        exact hst2
      · show e2.entity_id = ((L.stations.set s st2).getD s2 default).current_job
        rw [stGetD_set_ne L.stations s2 s st2 hne]
        exact hent
      · show ((L.stations.set s st2).getD s2 default).current_job ≠ none
        rw [stGetD_set_ne L.stations s2 s st2 hne]
        exact hnn
theorem PEcount_set_idle (L : ProductionLine) (s : ℕ) (st2 : Station)
    (hs : s < L.stations.length)
    (hcount0 : countPE s L.sim.event_queue = 0)
    (hnp2 : ¬ st2.state = StationState.PROCESSING)
    (hpcount : ∀ s2, s2 < L.stations.length → s2 ≠ s →
      countPE s2 L.sim.event_queue =
        (if (L.stations.getD s2 default).state = StationState.PROCESSING
         then 1 else 0)) :
    PEcount { L with stations := L.stations.set s st2 } := by
  intro s2 hs2
  have hs2b : s2 < L.stations.length := by
    have h2 : s2 < (L.stations.set s st2).length := hs2
    rw [List.length_set] at h2
    exact h2
  show countPE s2 L.sim.event_queue = _
  by_cases hss : s2 = s
  · subst hss
    rw [hcount0, show (L.stations.set s2 st2).getD s2 default = st2 from
      stGetD_set_self L.stations s2 hs2b st2, if_neg hnp2]
  · have hne : s ≠ s2 := fun hh => hss hh.symm
    rw [hpcount s2 hs2b hss, show (L.stations.set s st2).getD s2 default =
      L.stations.getD s2 default from stGetD_set_ne L.stations s2 s st2 hne]
theorem PEevents_set_same (L : ProductionLine) (s : ℕ) (st2 : Station)
    (hs : s < L.stations.length)
    (hstate : st2.state = (L.stations.getD s default).state)
    (hcur : st2.current_job = (L.stations.getD s default).current_job)
    (hpe : PEevents L) :
    PEevents { L with stations := L.stations.set s st2 } := by
  intro e2 he2
  rcases hpe e2 he2 with harr | ⟨hpety, s2, hsid, hs2, hst2, hent, hnn⟩
  · left
    exact harr
  · right
    refine ⟨hpety, s2, hsid, ?_, ?_, ?_, ?_⟩
    · show s2 < (L.stations.set s st2).length
      rw [List.length_set]
      exact hs2
    · show ((L.stations.set s st2).getD s2 default).state = _
      by_cases hss : s2 = s
      · subst hss
        rw [stGetD_set_self L.stations s2 hs2 st2, hstate]
        exact hst2
      · rw [stGetD_set_ne L.stations s2 s st2 (fun hh => hss hh.symm)]
        exact hst2
    · show e2.entity_id = ((L.stations.set s st2).getD s2 default).current_job
      by_cases hss : s2 = s
      · subst hss
        rw [stGetD_set_self L.stations s2 hs2 st2, hcur]
        exact hent
      · rw [stGetD_set_ne L.stations s2 s st2 (fun hh => hss hh.symm)]
        exact hent
    · show ((L.stations.set s st2).getD s2 default).current_job ≠ none
      by_cases hss : s2 = s
      · subst hss
        rw [stGetD_set_self L.stations s2 hs2 st2, hcur]
        exact hnn
      · rw [stGetD_set_ne L.stations s2 s st2 (fun hh => hss hh.symm)]
        exact hnn
theorem PEcount_set_same (L : ProductionLine) (s : ℕ) (st2 : Station)
    (hstate : st2.state = (L.stations.getD s default).state)
    (hpc : PEcount L) :
    PEcount { L with stations := L.stations.set s st2 } := by
  intro s2 hs2
  have hs2b : s2 < L.stations.length := by
    have h2 : s2 < (L.stations.set s st2).length := hs2
    rw [List.length_set] at h2
    exact h2
  show countPE s2 L.sim.event_queue = _
  by_cases hss : s2 = s
  · subst hss
    rw [hpc s2 hs2b, stGetD_set_self L.stations s2 hs2b st2, hstate]
  · rw [hpc s2 hs2b, stGetD_set_ne L.stations s2 s st2
      (fun hh => hss hh.symm)]
theorem PEevents_schedule (L : ProductionLine) (ev : Event)
    (hty : ev.event_type = EventType.ARRIVAL) (hpe : PEevents L) :
    PEevents { L with sim := scheduleEvent L.sim ev } := by
  intro e2 he2
  have hmem := ((heappush_perm L.sim.event_queue ev).mem_iff).mp he2
  rcases List.mem_cons.mp hmem with hev | hold
  · left
    rw [hev]
    exact hty
  · exact hpe e2 hold
theorem PEcount_schedule (L : ProductionLine) (ev : Event)
    (hty : ev.event_type = EventType.ARRIVAL) (hpc : PEcount L) :
    PEcount { L with sim := scheduleEvent L.sim ev } := by
  intro s2 hs2
  have hs2b : s2 < L.stations.length := hs2
  show countPE s2 (heappush L.sim.event_queue ev) =
    (if (L.stations.getD s2 default).state = StationState.PROCESSING
     then 1 else 0)
  unfold countPE
  rw [(heappush_perm L.sim.event_queue ev).countP_eq
    (fun e => decide (e.event_type = EventType.PROCESSING_END ∧
                      e.station_id = some s2)), List.countP_cons]
  rw [if_neg (by
    rw [decide_eq_true_eq]
    intro hcon
    rw [hty] at hcon
    exact EventType.noConfusion hcon.1)]
  have hco := hpc s2 hs2b
  unfold countPE at hco
  rw [hco]
  omega
/-! ## Invariant preservation by the event handlers -/
theorem tryStart_admitted_invariant (L L3 : ProductionLine) (j : ℕ)
    (hstations : L3.stations = L.stations)
    (hsim : L3.sim = L.sim)
    (hnum : L3.num_stations = L.num_stations)
    (hcw : L3.conwip_level = L.conwip_level)
    (hcnt : L3.entity_counter = L.entity_counter + 1)
    (hwip : L3.system_wip = L.system_wip + 1)
    (hcomp : L3.completed_jobs = L.completed_jobs)
    (hj : j = L.entity_counter + 1)
    (hadm : L.system_wip < L.conwip_level)
    (hinv : LineInv L) :
    LineInv (tryStartProcessing L3 0 j) := by
  have hs0 : 0 < L3.stations.length := by
    rw [hstations, hinv.stations_len]
    have := hinv.one_station
    omega
  have hfresh : j ∉ jobsInSystem L3.stations := by
    rw [hstations]
    intro hmem
    have := hinv.jobs_bounded j hmem
    omega
  have hpe3 : PEevents L3 := by
    unfold PEevents
    simp only [hstations, hsim]
    exact hinv.pe_events
  have hpc3 : PEcount L3 := by
    unfold PEcount
    simp only [hstations, hsim]
    exact hinv.pe_count
  obtain ⟨hjobs, hpe4, hpc4, hlen4, hnum4, hcw4, hcnt4, hwip4, hcomp4,
    _⟩ := tryStart_invariant L3 0 j hs0 hfresh hpe3 hpc3
  rw [hstations] at hjobs
  have hjlen := hjobs.length_eq
  refine ⟨?_, ?_, ?_, ?_, ?_, ?_, ?_, hpe4, hpc4⟩
  · rw [hnum4, hnum]
    exact hinv.one_station
  · rw [hlen4, hnum4, hstations, hnum]
    exact hinv.stations_len
  · rw [hwip4, hcnt4, hcomp4, hwip, hcnt, hcomp]
    have := hinv.wip_counter
    push_cast
    push_cast at this
    omega
  · rw [hwip4, hwip, hjlen]
    have hw := hinv.wip_jobs
    simp only [List.length_cons]
    push_cast
    push_cast at hw
    omega
  · rw [hwip4, hcw4, hwip, hcw]
    omega
  · rw [(hjobs.nodup_iff)]
    refine List.nodup_cons.mpr ⟨?_, hinv.jobs_nodup⟩
    intro hmem
    have := hinv.jobs_bounded j hmem
    omega
  · intro x hx
    rw [hcnt4, hcnt]
    have hx2 := (hjobs.mem_iff).mp hx
    rcases List.mem_cons.mp hx2 with hxj | hxm
    · omega
    · have := hinv.jobs_bounded x hxm
      omega
theorem handleArrival_invariant (L : ProductionLine) (e : Event)
    (hinv : LineInv L) : LineInv (handleArrival L e) := by
  unfold handleArrival
  by_cases hadm : L.system_wip < L.conwip_level
  · rw [if_pos hadm]
    exact tryStart_admitted_invariant L _ _ rfl rfl rfl rfl rfl rfl rfl
      rfl hadm hinv
  · rw [if_neg hadm]
    exact hinv
theorem drainStep_invariant (L : ProductionLine) (s0 nextj : ℕ)
    (rest : List ℕ) (hs0 : s0 < L.stations.length)
    (hq : (L.stations.getD s0 default).queue = nextj :: rest)
    (hinv : LineInv L) :
    LineInv (tryStartProcessing (requeuedLine L s0 rest) s0 nextj) := by
  have hstations : (requeuedLine L s0 rest).stations =
      L.stations.set s0
        { L.stations.getD s0 default with queue := rest } := rfl
  have hc : (contrib (L.stations.getD s0 default)).Perm
      (nextj :: contrib
        ({ L.stations.getD s0 default with queue := rest } : Station)) := by
    unfold contrib
    dsimp only
    rw [hq]
    exact List.perm_middle
  have hjobs : (jobsInSystem L.stations).Perm
      (nextj :: jobsInSystem (requeuedLine L s0 rest).stations) := by
    rw [hstations]
    exact jobs_set_uncons_perm L.stations s0 _ nextj hs0 hc
  have hpe2 : PEevents (requeuedLine L s0 rest) :=
    PEevents_set_same L s0 _ hs0 rfl rfl hinv.pe_events
  have hpc2 : PEcount (requeuedLine L s0 rest) :=
    PEcount_set_same L s0 _ rfl hinv.pe_count
  have hs0R : s0 < (requeuedLine L s0 rest).stations.length := by
    rw [hstations, List.length_set]
    exact hs0
  have hnodupR : ((nextj :: jobsInSystem
      (requeuedLine L s0 rest).stations)).Nodup :=
    (hjobs.nodup_iff).mp hinv.jobs_nodup
  have hfreshR : nextj ∉ jobsInSystem (requeuedLine L s0 rest).stations :=
    (List.nodup_cons.mp hnodupR).1
  obtain ⟨hjobs5, hpe5, hpc5, hlen5, hnum5, hcw5, hcnt5, hwip5, hcomp5,
    _⟩ := tryStart_invariant (requeuedLine L s0 rest) s0 nextj hs0R
      hfreshR hpe2 hpc2
  have hjchain : (jobsInSystem (tryStartProcessing
      (requeuedLine L s0 rest) s0 nextj).stations).Perm
      (jobsInSystem L.stations) := hjobs5.trans hjobs.symm
  refine ⟨?_, ?_, ?_, ?_, ?_, ?_, ?_, hpe5, hpc5⟩
  · rw [hnum5]
    exact hinv.one_station
  · rw [hlen5, hnum5, hstations, List.length_set]
    exact hinv.stations_len
  · rw [hwip5, hcnt5, hcomp5]
    exact hinv.wip_counter
  · rw [hwip5, hjchain.length_eq]
    exact hinv.wip_jobs
  · rw [hwip5, hcw5]
    exact hinv.wip_le
  · exact (hjchain.nodup_iff).mpr hinv.jobs_nodup
  · intro x hx
    rw [hcnt5]
    exact hinv.jobs_bounded x ((hjchain.mem_iff).mp hx)
theorem finishedStation_state (st : Station) (c : ℚ) :
    (finishedStation st c).state = StationState.IDLE := by
  unfold finishedStation
  rw [updateStatistics_state]
theorem finishedStation_np (st : Station) (c : ℚ) :
    ¬ (finishedStation st c).state = StationState.PROCESSING := by
  rw [finishedStation_state]
  decide
theorem finishedStation_queue (st : Station) (c : ℚ) :
    (finishedStation st c).queue = st.queue := by
  unfold finishedStation
  rw [updateStatistics_queue]
theorem stSome_of_lt (l : List Station) (i : ℕ) (h : i < l.length) :
    l[i]? = some (l.getD i default) := by
  rw [stGetD_of_lt l i h]
  exact List.getElem?_eq_getElem h
theorem LineInv_schedule_arrival (L : ProductionLine) (ev : Event)
    (hty : ev.event_type = EventType.ARRIVAL) (hinv : LineInv L) :
    LineInv { L with sim := scheduleEvent L.sim ev } :=
  ⟨hinv.one_station, hinv.stations_len, hinv.wip_counter, hinv.wip_jobs,
   hinv.wip_le, hinv.jobs_nodup, hinv.jobs_bounded,
   PEevents_schedule L ev hty hinv.pe_events,
   PEcount_schedule L ev hty hinv.pe_count⟩
theorem handlePE_eq (L : ProductionLine) (e : Event) (s0 j0 : ℕ)
    (hsid : e.station_id = some s0) (hent : e.entity_id = some j0)
    (hs0 : s0 < L.stations.length) :
    handleProcessingEnd L e =
      drainLine
        (if (s0 : ℤ) < L.num_stations - 1 then
          tryStartProcessing (finishedLine L s0) (s0 + 1) j0
        else pulledLine (completedLine L s0 j0)) s0 := by
  unfold handleProcessingEnd
  rw [hsid, hent]
  dsimp only
  rw [stSome_of_lt L.stations s0 hs0]
  dsimp only
  unfold drainLine pulledLine completedLine finishedLine
  dsimp only
  rfl
theorem drainLine_invariant (L : ProductionLine) (s0 : ℕ)
    (hs0 : s0 < L.stations.length) (hinv : LineInv L) :
    LineInv (drainLine L s0) := by
  unfold drainLine
  rw [stSome_of_lt L.stations s0 hs0]
  dsimp only
  cases hq : (L.stations.getD s0 default).queue with
  | nil => exact hinv
  | cons nextj rest => exact drainStep_invariant L s0 nextj rest hs0 hq hinv
theorem handlePE_invariant (L : ProductionLine) (e : Event) (s0 j0 : ℕ)
    (hsid : e.station_id = some s0)
    (hent : e.entity_id = some j0)
    (hs0 : s0 < L.stations.length)
    (hone : 1 ≤ L.num_stations)
    (hslen : L.stations.length = L.num_stations.toNat)
    (hwc : L.system_wip =
      (L.entity_counter : ℤ) - (L.completed_jobs.length : ℤ))
    (hwj : L.system_wip = ((jobsInSystem L.stations).length : ℤ))
    (hwle : L.system_wip ≤ L.conwip_level)
    (hnd : (jobsInSystem L.stations).Nodup)
    (hbd : ∀ j ∈ jobsInSystem L.stations, j ≤ L.entity_counter)
    (hproc : (L.stations.getD s0 default).state = StationState.PROCESSING)
    (hcur : (L.stations.getD s0 default).current_job = some j0)
    (hcount0 : countPE s0 L.sim.event_queue = 0)
    (hpe : PEevents L)
    (hpcount : ∀ s2, s2 < L.stations.length → s2 ≠ s0 →
      countPE s2 L.sim.event_queue =
        (if (L.stations.getD s2 default).state = StationState.PROCESSING
         then 1 else 0)) :
    LineInv (handleProcessingEnd L e) := by
  rw [handlePE_eq L e s0 j0 hsid hent hs0]
  have hfstations : (finishedLine L s0).stations = L.stations.set s0
      (finishedStation (L.stations.getD s0 default) L.sim.clock) := rfl
  have hjobs2a : (jobsInSystem L.stations).Perm
      (j0 :: jobsInSystem (finishedLine L s0).stations) := by
    rw [hfstations]
    apply jobs_set_uncons_perm L.stations s0 _ j0 hs0
    rw [contrib_of_processing _ j0 hproc hcur,
      contrib_of_not_processing _ (finishedStation_np _ _),
      finishedStation_queue]
  have hpe2a : PEevents (finishedLine L s0) :=
    PEevents_set_apop L s0 _ hcount0 hpe
  have hpc2a : PEcount (finishedLine L s0) :=
    PEcount_set_idle L s0 _ hs0 hcount0 (finishedStation_np _ _) hpcount
  have hnodup2 : (j0 :: jobsInSystem (finishedLine L s0).stations).Nodup :=
    (hjobs2a.nodup_iff).mp hnd
  have hfresh2a : j0 ∉ jobsInSystem (finishedLine L s0).stations :=
    (List.nodup_cons.mp hnodup2).1
  have hlen2a : (finishedLine L s0).stations.length =
      L.stations.length := by
    rw [hfstations, List.length_set]
  by_cases hroute : (s0 : ℤ) < L.num_stations - 1
  · rw [if_pos hroute]
    have hs1 : s0 + 1 < (finishedLine L s0).stations.length := by
      rw [hlen2a, hslen]
      omega
    obtain ⟨hjobs5, hpe5, hpc5, hlen5, hnum5, hcw5, hcnt5, hwip5, hcomp5,
      _⟩ := tryStart_invariant (finishedLine L s0) (s0 + 1) j0 hs1
        hfresh2a hpe2a hpc2a
    have hjchain : (jobsInSystem (tryStartProcessing (finishedLine L s0)
        (s0 + 1) j0).stations).Perm (jobsInSystem L.stations) :=
      hjobs5.trans hjobs2a.symm
    have hinv3 : LineInv (tryStartProcessing (finishedLine L s0)
        (s0 + 1) j0) := by
      refine ⟨?_, ?_, ?_, ?_, ?_, ?_, ?_, hpe5, hpc5⟩
      · rw [hnum5]
        exact hone
      · rw [hlen5, hlen2a, hnum5]
        exact hslen
      · rw [hwip5, hcnt5, hcomp5]
        exact hwc
      · rw [hwip5, hjchain.length_eq]
        exact hwj
      · rw [hwip5, hcw5]
        exact hwle
      · exact (hjchain.nodup_iff).mpr hnd
      · intro x hx
        rw [hcnt5]
        exact hbd x ((hjchain.mem_iff).mp hx)
    have hs0len3 : s0 < (tryStartProcessing (finishedLine L s0)
        (s0 + 1) j0).stations.length := by
      rw [hlen5, hlen2a]
      exact hs0
    exact drainLine_invariant _ s0 hs0len3 hinv3
  · rw [if_neg hroute]
    have hjlen2 := hjobs2a.length_eq
    rw [List.length_cons] at hjlen2
    have hinv2b : LineInv (completedLine L s0 j0) := by
      refine ⟨hone, ?_, ?_, ?_, ?_, ?_, ?_, hpe2a, hpc2a⟩
      · show (finishedLine L s0).stations.length = _
        rw [hlen2a]
        exact hslen
      · show L.system_wip - 1 = (L.entity_counter : ℤ) -
          ((L.completed_jobs ++ [j0]).length : ℤ)
        simp only [List.length_append, List.length_singleton]
        push_cast
        omega
      · show L.system_wip - 1 =
          ((jobsInSystem (finishedLine L s0).stations).length : ℤ)
        omega
      · show L.system_wip - 1 ≤ L.conwip_level
        omega
      · exact (List.nodup_cons.mp hnodup2).2
      · intro x hx
        exact hbd x ((hjobs2a.mem_iff).mpr (List.mem_cons_of_mem j0 hx))
    have hinv2c : LineInv (pulledLine (completedLine L s0 j0)) := by
      unfold pulledLine
      by_cases hpull : (completedLine L s0 j0).system_wip <
          (completedLine L s0 j0).conwip_level
      · rw [if_pos hpull]
        exact LineInv_schedule_arrival _ _ rfl hinv2b
      · rw [if_neg hpull]
        exact hinv2b
    have hpstations : (pulledLine (completedLine L s0 j0)).stations =
        (finishedLine L s0).stations := by
      unfold pulledLine
      split
      · rfl
      · rfl
    have hs0lenc : s0 <
        (pulledLine (completedLine L s0 j0)).stations.length := by
      rw [hpstations, hlen2a]
      exact hs0
    exact drainLine_invariant _ s0 hs0lenc hinv2c
/-! ## Step-level and run-level invariant preservation -/
theorem LineInv_events_processed (L : ProductionLine) (n : ℕ)
    (hinv : LineInv L) :
    LineInv { L with sim := { L.sim with events_processed := n } } :=
  ⟨hinv.one_station, hinv.stations_len, hinv.wip_counter, hinv.wip_jobs,
   hinv.wip_le, hinv.jobs_nodup, hinv.jobs_bounded, hinv.pe_events,
   hinv.pe_count⟩
theorem LineInv_popped (L : ProductionLine) (ev : Event)
    (q2 : List Event) (clock : ℚ)
    (hqperm : L.sim.event_queue.Perm (ev :: q2))
    (hevcount : ∀ s2, (decide (ev.event_type = EventType.PROCESSING_END ∧
      ev.station_id = some s2) : Bool) = false)
    (hinv : LineInv L) :
    LineInv { L with sim :=
      { L.sim with event_queue := q2, clock := clock } } := by
  refine ⟨hinv.one_station, hinv.stations_len, hinv.wip_counter,
    hinv.wip_jobs, hinv.wip_le, hinv.jobs_nodup, hinv.jobs_bounded,
    ?_, ?_⟩
  · intro e2 he2
    exact hinv.pe_events e2 ((hqperm.mem_iff).mpr
      (List.mem_cons_of_mem ev he2))
  · intro s2 hs2
    have hco := hinv.pe_count s2 hs2
    unfold countPE at hco ⊢
    rw [hqperm.countP_eq] at hco
    rw [List.countP_cons, hevcount s2] at hco
    simp only [Bool.false_eq_true, if_false, Nat.add_zero] at hco
    exact hco
theorem stepSim_invariant (mt : Option ℚ) (me : Option ℕ)
    (L L2 : ProductionLine) (hinv : LineInv L)
    (hstep : stepSim mt me L = some L2) : LineInv L2 := by
  unfold stepSim at hstep
  split_ifs at hstep
  cases hpop : heappop L.sim.event_queue with
  | none =>
    rw [hpop] at hstep
    exact Option.noConfusion hstep
  | some pair =>
    obtain ⟨ev, q2⟩ := pair
    rw [hpop] at hstep
    dsimp only at hstep
    injection hstep with hL2
    rw [← hL2]
    have hqperm := heappop_perm L.sim.event_queue ev q2 hpop
    have hevmem : ev ∈ L.sim.event_queue :=
      (hqperm.mem_iff).mpr (List.mem_cons_self ev q2)
    apply LineInv_events_processed
    rcases hinv.pe_events ev hevmem with harr |
      ⟨hpety, s0, hsid, hs0, hst0, hent0, hnn⟩
    · unfold dispatchEvent
      rw [harr]
      dsimp only
      apply handleArrival_invariant
      apply LineInv_popped L ev q2 ev.time hqperm ?_ hinv
      intro s2
      rw [decide_eq_false_iff_not]
      intro hcon
      rw [harr] at hcon
      exact EventType.noConfusion hcon.1
    · unfold dispatchEvent
      rw [hpety]
      dsimp only
      obtain ⟨j0, hj0⟩ :=
        Option.ne_none_iff_exists'.mp hnn
      have hcountev : (decide (ev.event_type = EventType.PROCESSING_END ∧
          ev.station_id = some s0) : Bool) = true := by
        rw [decide_eq_true_eq]
        exact ⟨hpety, hsid⟩
      have hcountq : countPE s0 L.sim.event_queue = countPE s0 q2 + 1 := by
        unfold countPE
        rw [hqperm.countP_eq, List.countP_cons, hcountev, if_pos rfl]
      have hcount1 : countPE s0 L.sim.event_queue = 1 := by
        rw [hinv.pe_count s0 hs0, if_pos hst0]
      have hcount0 : countPE s0 q2 = 0 := by omega
      refine handlePE_invariant (poppedLine L ev.time q2) ev s0 j0 hsid
        (hent0.trans hj0) hs0 hinv.one_station hinv.stations_len
        hinv.wip_counter hinv.wip_jobs hinv.wip_le hinv.jobs_nodup
        hinv.jobs_bounded hst0 hj0 hcount0 ?_ ?_
      · intro e2 he2
        exact hinv.pe_events e2 ((hqperm.mem_iff).mpr
          (List.mem_cons_of_mem ev he2))
      · intro s2 hs2 hs2ne
        have hco := hinv.pe_count s2 hs2
        unfold countPE at hco ⊢
        rw [hqperm.countP_eq, List.countP_cons] at hco
        rw [if_neg (by
          rw [decide_eq_true_eq]
          intro hcon
          apply hs2ne
          have := hsid.symm.trans hcon.2
          injection this with hv
          exact hv.symm)] at hco
        rw [Nat.add_zero] at hco
        exact hco
theorem runFuel_invariant (fuel : ℕ) (mt : Option ℚ) (me : Option ℕ)
    (L : ProductionLine) (hinv : LineInv L) :
    LineInv (runFuel fuel mt me L) := by
  induction fuel generalizing L with
  | zero => exact hinv
  | succ n ih =>
    show LineInv (match stepSim mt me L with
      | none => L
      | some L2 => runFuel n mt me L2)
    cases hstep : stepSim mt me L with
    | none => exact hinv
    | some L2 => exact ih L2 (stepSim_invariant mt me L L2 hinv hstep)
/-! ## The invariant at the initial state -/
theorem buildStation_ok_facts (mp cvl : List ℚ) (i : ℕ) (st : Station)
    (h : buildStation mp cvl i = Except.ok st) :
    st.state = StationState.IDLE ∧ st.queue = [] ∧
    st.total_processing_time = 0 := by
  unfold buildStation at h
  cases hm : mp[i]? with
  | none =>
    rw [hm] at h
    exact Except.noConfusion h
  | some m =>
    rw [hm] at h
    cases hcv : cvl[i]? with
    | none =>
      rw [hcv] at h
      exact Except.noConfusion h
    | some cv =>
      rw [hcv] at h
      injection h with hst
      rw [← hst]
      exact ⟨rfl, rfl, rfl⟩
theorem mapM_buildStation_facts (mp cvl : List ℚ) (l : List ℕ)
    (sts : List Station)
    (h : l.mapM (buildStation mp cvl) = Except.ok sts) :
    sts.length = l.length ∧
    ∀ st ∈ sts, st.state = StationState.IDLE ∧ st.queue = [] ∧
      st.total_processing_time = 0 := by
  induction l generalizing sts with
  | nil =>
    rw [List.mapM_nil] at h
    injection h with hs
    rw [← hs]
    exact ⟨rfl, fun st hst => absurd hst (List.not_mem_nil st)⟩
  | cons a t ih =>
    rw [List.mapM_cons] at h
    cases ha : buildStation mp cvl a with
    | error msg =>
      rw [ha] at h
      exact Except.noConfusion h
    | ok st0 =>
      rw [ha] at h
      cases hts : t.mapM (buildStation mp cvl) with
      | error msg =>
        rw [hts] at h
        exact Except.noConfusion h
      | ok rest =>
        rw [hts] at h
        injection h with hs
        rw [← hs]
        obtain ⟨hlen, hall⟩ := ih rest hts
        refine ⟨by rw [List.length_cons, List.length_cons, hlen], ?_⟩
        intro st hst
        rcases List.mem_cons.mp hst with hst0 | hmem
        · rw [hst0]
          exact buildStation_ok_facts mp cvl a st0 ha
        · exact hall st hmem
theorem jobsInSystem_of_empty (sts : List Station)
    (h : ∀ st ∈ sts, st.state = StationState.IDLE ∧ st.queue = []) :
    jobsInSystem sts = [] := by
  induction sts with
  | nil => rfl
  | cons st t ih =>
    rw [jobsInSystem_cons]
    obtain ⟨hst, hq⟩ := h st (List.mem_cons_self st t)
    rw [contrib_of_not_processing st (by rw [hst]; decide), hq,
      List.nil_append]
    exact ih (fun st2 hst2 => h st2 (List.mem_cons_of_mem st hst2))
theorem initLine_fields (ns cw : ℤ) (mpts cvs : Option (List ℚ))
    (ar cva : ℚ) (rng : ℕ → ℚ → ℚ → ℚ) (line : ProductionLine)
    (hok : initLine ns cw mpts cvs ar cva rng = Except.ok line) :
    line.num_stations = ns ∧ line.conwip_level = cw ∧
    line.sim.event_queue = [] ∧ line.entity_counter = 0 ∧
    line.system_wip = 0 ∧ line.completed_jobs = [] ∧
    line.stations.length = ns.toNat ∧
    (∀ st ∈ line.stations, st.state = StationState.IDLE ∧
      st.queue = [] ∧ st.total_processing_time = 0) := by
  unfold initLine at hok
  dsimp only at hok
  cases hm : (List.range ns.toNat).mapM
      (buildStation (mpts.getD (List.replicate ns.toNat 1))
        (cvs.getD (List.replicate ns.toNat 1))) with
  | error msg =>
    rw [hm] at hok
    exact Except.noConfusion hok
  | ok sts =>
    rw [hm] at hok
    injection hok with hline
    obtain ⟨hlen, hall⟩ := mapM_buildStation_facts _ _ _ sts hm
    rw [← hline]
    refine ⟨rfl, rfl, rfl, rfl, rfl, rfl, ?_, ?_⟩
    · show sts.length = ns.toNat
      rw [hlen, List.length_range]
    · intro st hst
      exact hall st hst
theorem LineInv_initial (ns cw : ℤ) (mpts cvs : Option (List ℚ))
    (ar cva : ℚ) (rng : ℕ → ℚ → ℚ → ℚ) (line : ProductionLine)
    (hok : initLine ns cw mpts cvs ar cva rng = Except.ok line)
    (hns : 1 ≤ ns) (hcw : 1 ≤ cw) : LineInv line := by
  obtain ⟨hnum, hcwf, hqf, hcnt, hwip, hcomp, hlen, hall⟩ :=
    initLine_fields ns cw mpts cvs ar cva rng line hok
  have hjobs : jobsInSystem line.stations = [] :=
    jobsInSystem_of_empty line.stations
      (fun st hst => ⟨(hall st hst).1, (hall st hst).2.1⟩)
  refine ⟨?_, ?_, ?_, ?_, ?_, ?_, ?_, ?_, ?_⟩
  · rw [hnum]
    exact hns
  · rw [hlen, hnum]
  · rw [hwip, hcnt, hcomp]
    rfl
  · rw [hwip, hjobs]
    rfl
  · rw [hwip, hcwf]
    omega
  · rw [hjobs]
    exact List.nodup_nil
  · intro x hx
    rw [hjobs] at hx
    exact absurd hx (List.not_mem_nil x)
  · intro e2 he2
    rw [hqf] at he2
    exact absurd he2 (List.not_mem_nil e2)
  · intro s2 hs2
    unfold countPE
    rw [hqf]
    have hmem : line.stations.getD s2 default ∈ line.stations := by
      rw [stGetD_of_lt line.stations s2 hs2]
      exact List.getElem_mem hs2
    rw [if_neg (by
      rw [(hall _ hmem).1]
      decide)]
    rfl
theorem scheduleArrivals_invariant (times : List ℚ)
    (L : ProductionLine) (hinv : LineInv L) :
    LineInv (scheduleArrivals L times) := by
  induction times generalizing L with
  | nil => exact hinv
  | cons t ts ih =>
    show LineInv (scheduleArrivals _ ts)
    exact ih _ (LineInv_schedule_arrival L _ rfl hinv)
/-! ## `conwip_level` is constant throughout a run -/
theorem tryStart_conwip (L : ProductionLine) (s j : ℕ) :
    (tryStartProcessing L s j).conwip_level = L.conwip_level := by
  unfold tryStartProcessing
  cases L.stations[s]? with
  | none => rfl
  | some st =>
    dsimp only
    split
    · rfl
    · split <;> rfl
theorem handleArrival_conwip (L : ProductionLine) (e : Event) :
    (handleArrival L e).conwip_level = L.conwip_level := by
  unfold handleArrival
  split
  · rw [tryStart_conwip]
  · rfl
theorem drainLine_conwip (L : ProductionLine) (s0 : ℕ) :
    (drainLine L s0).conwip_level = L.conwip_level := by
  unfold drainLine
  cases L.stations[s0]? with
  | none => rfl
  | some st =>
    dsimp only
    cases st.queue with
    | nil => rfl
    | cons a t => rw [tryStart_conwip]
theorem pulledLine_conwip (L : ProductionLine) :
    (pulledLine L).conwip_level = L.conwip_level := by
  unfold pulledLine
  split <;> rfl
theorem handlePE_conwip (L : ProductionLine) (e : Event) :
    (handleProcessingEnd L e).conwip_level = L.conwip_level := by
  cases hsid : e.station_id with
  | none =>
    unfold handleProcessingEnd
    rw [hsid]
  | some s0 =>
    cases hent : e.entity_id with
    | none =>
      unfold handleProcessingEnd
      rw [hsid, hent]
    | some j0 =>
      by_cases hs0 : s0 < L.stations.length
      · rw [handlePE_eq L e s0 j0 hsid hent hs0, drainLine_conwip]
        split
        · rw [tryStart_conwip]
          rfl
        · rw [pulledLine_conwip]
          rfl
      · unfold handleProcessingEnd
        rw [hsid, hent]
        dsimp only
        rw [List.getElem?_eq_none (by omega)]
theorem dispatch_conwip (L : ProductionLine) (e : Event) :
    (dispatchEvent L e).conwip_level = L.conwip_level := by
  unfold dispatchEvent
  cases e.event_type
  · exact handleArrival_conwip L e
  · rfl
  · exact handlePE_conwip L e
  · rfl
theorem stepSim_conwip (mt : Option ℚ) (me : Option ℕ)
    (L L2 : ProductionLine) (hstep : stepSim mt me L = some L2) :
    L2.conwip_level = L.conwip_level := by
  unfold stepSim at hstep
  split_ifs at hstep
  cases hpop : heappop L.sim.event_queue with
  | none =>
    rw [hpop] at hstep
    exact Option.noConfusion hstep
  | some pair =>
    obtain ⟨ev, q2⟩ := pair
    rw [hpop] at hstep
    dsimp only at hstep
    injection hstep with hL2
    rw [← hL2]
    show (dispatchEvent (poppedLine L ev.time q2) ev).conwip_level = _
    rw [dispatch_conwip]
    rfl
theorem runFuel_conwip (fuel : ℕ) (mt : Option ℚ) (me : Option ℕ)
    (L : ProductionLine) :
    (runFuel fuel mt me L).conwip_level = L.conwip_level := by
  induction fuel generalizing L with
  | zero => rfl
  | succ n ih =>
    show (match stepSim mt me L with
      | none => L
      | some L2 => runFuel n mt me L2).conwip_level = _
    cases hstep : stepSim mt me L with
    | none => rfl
    | some L2 => rw [ih L2, stepSim_conwip mt me L L2 hstep]
theorem scheduleArrivals_conwip (times : List ℚ) (L : ProductionLine) :
    (scheduleArrivals L times).conwip_level = L.conwip_level := by
  induction times generalizing L with
  | nil => rfl
  | cons t ts ih =>
    show (scheduleArrivals _ ts).conwip_level = _
    rw [ih]
/-! ## Claim C3: WIP conservation -/
/-- C3: for every valid configuration (at least one station, CONWIP
level at least one), every generated arrival schedule, every random
oracle and every number of dispatched events, at the resulting dispatch
boundary `system_wip` equals the number of admitted jobs
(`entity_counter`) minus the number of completed jobs, and
`0 ≤ system_wip ≤ conwip_level`; in particular with `conwip_level = 1`
at most one job is ever in the system. -/
theorem claim_C3 (ns cw : ℤ) (mpts cvs : Option (List ℚ))
    (ar cva : ℚ) (rng : ℕ → ℚ → ℚ → ℚ) (line : ProductionLine)
    (times : List ℚ) (fuel : ℕ) (max_time : Option ℚ)
    (max_events : Option ℕ)
    (hok : initLine ns cw mpts cvs ar cva rng = Except.ok line)
    (hns : 1 ≤ ns) (hcw : 1 ≤ cw) :
    let Lf := runFuel fuel max_time max_events (scheduleArrivals line times)
    Lf.system_wip = (Lf.entity_counter : ℤ) -
      (Lf.completed_jobs.length : ℤ) ∧
    0 ≤ Lf.system_wip ∧ Lf.system_wip ≤ cw ∧
    (cw = 1 → (jobsInSystem Lf.stations).length ≤ 1) := by
  have hinv := runFuel_invariant fuel max_time max_events _
    (scheduleArrivals_invariant times line
      (LineInv_initial ns cw mpts cvs ar cva rng line hok hns hcw))
  have hconst : (runFuel fuel max_time max_events
      (scheduleArrivals line times)).conwip_level = cw := by
    rw [runFuel_conwip, scheduleArrivals_conwip]
    exact (initLine_fields ns cw mpts cvs ar cva rng line hok).2.1
  refine ⟨hinv.wip_counter, ?_, ?_, ?_⟩
  · rw [hinv.wip_jobs]
    exact Int.natCast_nonneg _
  · rw [← hconst]
    exact hinv.wip_le
  · intro h1
    have h2 := hinv.wip_le
    rw [hconst, h1, hinv.wip_jobs] at h2
    omega
/-- Witness for C3 on a one-station CONWIP-1 line with two scheduled
arrivals, run for three dispatches. -/
theorem claim_C3_witness :
    (initLine 1 1 (some [1]) (some [0]) 1 1 rngW = Except.ok lineW3 ∧
     (1 : ℤ) ≤ 1) ∧
    ((runFuel 3 none none (scheduleArrivals lineW3 [0, 1/2])).system_wip =
      ((runFuel 3 none none
        (scheduleArrivals lineW3 [0, 1/2])).entity_counter : ℤ) -
      ((runFuel 3 none none
        (scheduleArrivals lineW3 [0, 1/2])).completed_jobs.length : ℤ) ∧
     0 ≤ (runFuel 3 none none
       (scheduleArrivals lineW3 [0, 1/2])).system_wip ∧
     (runFuel 3 none none
       (scheduleArrivals lineW3 [0, 1/2])).system_wip ≤ 1 ∧
     ((1 : ℤ) = 1 → (jobsInSystem (runFuel 3 none none
       (scheduleArrivals lineW3 [0, 1/2])).stations).length ≤ 1)) :=
  ⟨⟨rfl, le_refl 1⟩,
   claim_C3 1 1 (some [1]) (some [0]) 1 1 rngW lineW3 [0, 1/2] 3 none
     none rfl (le_refl 1) (le_refl 1)⟩
/-! ## Claim C10: `total_processing_time` is never incremented -/
theorem startedStation_tpt (st : Station) (j : ℕ) (c : ℚ) :
    (startedStation st j c).total_processing_time =
      st.total_processing_time := by
  unfold startedStation
  rw [updateStatistics_tpt]
theorem finishedStation_tpt (st : Station) (c : ℚ) :
    (finishedStation st c).total_processing_time =
      st.total_processing_time := by
  unfold finishedStation
  rw [updateStatistics_tpt]
theorem TPZero_set (stations : List Station) (s : ℕ) (st2 : Station)
    (h : ∀ st ∈ stations, st.total_processing_time = 0)
    (h2 : st2.total_processing_time = 0) :
    ∀ st ∈ stations.set s st2, st.total_processing_time = 0 := by
  intro st hst
  rcases List.mem_or_eq_of_mem_set hst with hmem | heq
  · exact h st hmem
  · rw [heq]
    exact h2
theorem TPZero_tryStart (L : ProductionLine) (s j : ℕ)
    (h : ∀ st ∈ L.stations, st.total_processing_time = 0) :
    ∀ st ∈ (tryStartProcessing L s j).stations,
      st.total_processing_time = 0 := by
  cases hsome : L.stations[s]? with
  | none =>
    unfold tryStartProcessing
    rw [hsome]
    exact h
  | some st0 =>
    have hst0 : st0.total_processing_time = 0 :=
      h st0 (List.getElem?_mem hsome)
    rcases tryStart_cases L s j st0 hsome with
      ⟨_, heq⟩ | ⟨_, _, heq⟩ | ⟨_, _, heq⟩ <;> rw [heq]
    · exact TPZero_set L.stations s _ h
        (by rw [startedStation_tpt]; exact hst0)
    · exact h
    · exact TPZero_set L.stations s _ h hst0
theorem TPZero_handleArrival (L : ProductionLine) (e : Event)
    (h : ∀ st ∈ L.stations, st.total_processing_time = 0) :
    ∀ st ∈ (handleArrival L e).stations,
      st.total_processing_time = 0 := by
  unfold handleArrival
  split
  · exact TPZero_tryStart _ 0 _ h
  · exact h
theorem TPZero_drainLine (L : ProductionLine) (s0 : ℕ)
    (h : ∀ st ∈ L.stations, st.total_processing_time = 0) :
    ∀ st ∈ (drainLine L s0).stations, st.total_processing_time = 0 := by
  unfold drainLine
  cases hsome : L.stations[s0]? with
  | none => exact h
  | some st2 =>
    dsimp only
    cases st2.queue with
    | nil => exact h
    | cons a t =>
      apply TPZero_tryStart
      exact TPZero_set L.stations s0 _ h
        (h st2 (List.getElem?_mem hsome))
theorem TPZero_handlePE (L : ProductionLine) (e : Event)
    (h : ∀ st ∈ L.stations, st.total_processing_time = 0) :
    ∀ st ∈ (handleProcessingEnd L e).stations,
      st.total_processing_time = 0 := by
  cases hsid : e.station_id with
  | none =>
    unfold handleProcessingEnd
    rw [hsid]
    exact h
  | some s0 =>
    cases hent : e.entity_id with
    | none =>
      unfold handleProcessingEnd
      rw [hsid, hent]
      exact h
    | some j0 =>
      by_cases hs0 : s0 < L.stations.length
      · rw [handlePE_eq L e s0 j0 hsid hent hs0]
        have hfin : ∀ st ∈ (finishedLine L s0).stations,
            st.total_processing_time = 0 := by
          apply TPZero_set L.stations s0 _ h
          rw [finishedStation_tpt]
          have hmem : L.stations.getD s0 default ∈ L.stations := by
            rw [stGetD_of_lt L.stations s0 hs0]
            exact List.getElem_mem hs0
          exact h _ hmem
        apply TPZero_drainLine
        split
        · exact TPZero_tryStart _ _ _ hfin
        · show ∀ st ∈ (pulledLine (completedLine L s0 j0)).stations, _
          have hps : (pulledLine (completedLine L s0 j0)).stations =
              (finishedLine L s0).stations := by
            unfold pulledLine
            split <;> rfl
          rw [hps]
          exact hfin
      · unfold handleProcessingEnd
        rw [hsid, hent]
        dsimp only
        rw [List.getElem?_eq_none (by omega)]
        exact h
theorem TPZero_step (mt : Option ℚ) (me : Option ℕ)
    (L L2 : ProductionLine)
    (h : ∀ st ∈ L.stations, st.total_processing_time = 0)
    (hstep : stepSim mt me L = some L2) :
    ∀ st ∈ L2.stations, st.total_processing_time = 0 := by
  unfold stepSim at hstep
  split_ifs at hstep
  cases hpop : heappop L.sim.event_queue with
  | none =>
    rw [hpop] at hstep
    exact Option.noConfusion hstep
  | some pair =>
    obtain ⟨ev, q2⟩ := pair
    rw [hpop] at hstep
    dsimp only at hstep
    injection hstep with hL2
    rw [← hL2]
    show ∀ st ∈ (dispatchEvent (poppedLine L ev.time q2) ev).stations, _
    unfold dispatchEvent
    cases ev.event_type
    · exact TPZero_handleArrival _ _ h
    · exact h
    · exact TPZero_handlePE _ _ h
    · exact h
theorem TPZero_runFuel (fuel : ℕ) (mt : Option ℚ) (me : Option ℕ)
    (L : ProductionLine)
    (h : ∀ st ∈ L.stations, st.total_processing_time = 0) :
    ∀ st ∈ (runFuel fuel mt me L).stations,
      st.total_processing_time = 0 := by
  induction fuel generalizing L with
  | zero => exact h
  | succ n ih =>
    show ∀ st ∈ (match stepSim mt me L with
      | none => L
      | some L2 => runFuel n mt me L2).stations, _
    cases hstep : stepSim mt me L with
    | none => exact h
    | some L2 => exact ih L2 (TPZero_step mt me L L2 h hstep)
theorem TPZero_scheduleArrivals (times : List ℚ) (L : ProductionLine)
    (h : ∀ st ∈ L.stations, st.total_processing_time = 0) :
    ∀ st ∈ (scheduleArrivals L times).stations,
      st.total_processing_time = 0 := by
  induction times generalizing L with
  | nil => exact h
  | cons t ts ih =>
    show ∀ st ∈ (scheduleArrivals _ ts).stations, _
    exact ih _ h
/-- C10: for every run (any configuration, arrival schedule, random
oracle and number of dispatched events) and every warmup, every entry
of the `station_stats` list returned by `get_statistics` has
`avg_processing_time` exactly `0`, because no operation of the engine
ever adds to `total_processing_time`. -/
theorem claim_C10 (ns cw : ℤ) (mpts cvs : Option (List ℚ))
    (ar cva : ℚ) (rng : ℕ → ℚ → ℚ → ℚ) (line : ProductionLine)
    (times : List ℚ) (fuel : ℕ) (max_time : Option ℚ)
    (max_events : Option ℕ) (warmup : ℚ)
    (hok : initLine ns cw mpts cvs ar cva rng = Except.ok line) :
    ∀ entry ∈ (getStatistics (runFuel fuel max_time max_events
      (scheduleArrivals line times)) warmup).station_stats,
      entry.avg_processing_time = 0 := by
  have hz : ∀ st ∈ (runFuel fuel max_time max_events
      (scheduleArrivals line times)).stations,
      st.total_processing_time = 0 := by
    apply TPZero_runFuel
    apply TPZero_scheduleArrivals
    intro st hst
    exact ((initLine_fields ns cw mpts cvs ar cva rng line hok).2.2.2.2.2.2.2
      st hst).2.2
  intro entry hentry
  unfold getStatistics at hentry
  dsimp only at hentry
  rw [List.map_map] at hentry
  obtain ⟨st, hstmem, hentryeq⟩ := List.mem_map.mp hentry
  rw [← hentryeq]
  show (if (updateStatistics st _).total_processed > 0 then
    (updateStatistics st _).total_processing_time /
      ((updateStatistics st _).total_processed : ℚ) else 0) = 0
  rw [updateStatistics_tpt, hz st hstmem]
  split
  · exact zero_div _
  · rfl
/-- Witness for C10 on a two-station line run for four dispatches. -/
theorem claim_C10_witness :
    initLine 2 3 (some [1, 2]) (some [0, 1]) 1 1 rngW =
      Except.ok lineW10 ∧
    ∀ entry ∈ (getStatistics (runFuel 4 none none
      (scheduleArrivals lineW10 [0])) 0).station_stats,
      entry.avg_processing_time = 0 :=
  ⟨rfl, claim_C10 2 3 (some [1, 2]) (some [0, 1]) 1 1 rngW lineW10 [0] 4
    none none 0 rfl⟩
end SimEngine
